import Mathlib

/-!
Verification of the list-view logic of the PasarGuard panel dashboard:
pagination windowing, URL filter round-tripping, debounced search,
sort cycling, the node list's local-search mode, and the relative-time
formatters.  Each definition is a shallow embedding of the corresponding
TypeScript function; JavaScript numbers are modelled as `Int`/`Nat`
(with `Option` for `NaN` where a computation can produce it) and
JavaScript strings as `String` or `List Char`.
-/

namespace PasarGuard

/-! ## Pagination window (`getPaginationRange` in the users `PaginationControls`)

The source pushes page indices (0-based) into an array, using the
sentinel `-1` for the ellipsis marker; `delta = 2`.  We model the array
as `List Int` with the same sentinel, and name the two local variables
`start`/`end` of the source before and after their conditional
adjustments (`pgStart0`/`pgStart1`, `pgEnd0`/`pgEnd1`). -/

/-- `intRange a b` models the JS loop `for (let i = a; i <= b; i++) push(i)`. -/
def intRange (a b : Int) : List Int :=
  (List.range (b + 1 - a).toNat).map (fun i : Nat => a + (i : Int))

/-- `let start = Math.max(1, currentPage - delta)` with `delta = 2`. -/
def pgStart0 (currentPage : Int) : Int := max 1 (currentPage - 2)

/-- `let end = Math.min(totalPages - 2, currentPage + delta)`. -/
def pgEnd0 (currentPage totalPages : Int) : Int := min (totalPages - 2) (currentPage + 2)

/-- `if (currentPage - delta <= 1) end = Math.min(totalPages - 2, start + 2*delta)`. -/
def pgEnd1 (currentPage totalPages : Int) : Int :=
  if currentPage - 2 ≤ 1 then min (totalPages - 2) (pgStart0 currentPage + 2 * 2)
  else pgEnd0 currentPage totalPages

/-- `if (currentPage + delta >= totalPages - 2) start = Math.max(1, totalPages - 3 - 2*delta)`. -/
def pgStart1 (currentPage totalPages : Int) : Int :=
  if currentPage + 2 ≥ totalPages - 2 then max 1 (totalPages - 3 - 2 * 2)
  else pgStart0 currentPage

/-- Shallow embedding of `getPaginationRange(currentPage, totalPages)`
(users `PaginationControls`): all pages when `totalPages <= 5`, otherwise
first page, optional ellipsis, the adjusted `start..end` window, optional
ellipsis, and the last page. -/
def getPaginationRange (currentPage totalPages : Int) : List Int :=
  if totalPages ≤ 5 then
    intRange 0 (totalPages - 1)
  else
    [0] ++ (if pgStart1 currentPage totalPages > 1 then [(-1 : Int)] else [])
      ++ intRange (pgStart1 currentPage totalPages) (pgEnd1 currentPage totalPages)
      ++ (if pgEnd1 currentPage totalPages < totalPages - 2 then [(-1 : Int)] else [])
      ++ (if totalPages > 1 then [totalPages - 1] else [])

/-- Auxiliary walk for `ellipsisWellPlaced`: `prev` is the last
non-ellipsis entry already passed. -/
def ewpGo (prev : Int) : List Int → Bool
  | [] => true
  | [x] => if x = -1 then false else true
  | x :: y :: rest =>
      if x = -1 then
        if y = -1 then false else decide (prev + 1 < y) && ewpGo y rest
      else ewpGo x (y :: rest)

/-- Every ellipsis marker (`-1`) in the list is strictly interior, flanked
by two non-ellipsis entries `p` and `q` with a genuine gap `p + 1 < q`. -/
def ellipsisWellPlaced : List Int → Bool
  | [] => true
  | x :: rest => (x != -1) && ewpGo x rest

/-! ### Arithmetic facts about the window bounds -/

theorem pgStart1_pos (cp tp : Int) : 1 ≤ pgStart1 cp tp := by
  unfold pgStart1 pgStart0; split_ifs <;> omega

theorem pgEnd1_ub (cp tp : Int) (h : 6 ≤ tp) : pgEnd1 cp tp ≤ tp - 2 := by
  unfold pgEnd1 pgEnd0 pgStart0; split_ifs <;> omega

theorem pgStart1_le_pgEnd1 (cp tp : Int) (h0 : 0 ≤ cp) (h1 : cp < tp) (h6 : 6 ≤ tp) :
    pgStart1 cp tp ≤ pgEnd1 cp tp := by
  unfold pgStart1 pgEnd1 pgStart0 pgEnd0; split_ifs <;> omega

theorem pg_window_le (cp tp : Int) (h0 : 0 ≤ cp) (h1 : cp < tp) (h6 : 6 ≤ tp) :
    pgEnd1 cp tp + 1 - pgStart1 cp tp ≤ 6 := by
  unfold pgStart1 pgEnd1 pgStart0 pgEnd0; split_ifs <;> omega

theorem pg_window_le5 (cp tp : Int) (h0 : 0 ≤ cp) (h1 : cp < tp) (h6 : 6 ≤ tp)
    (hA : 1 < pgStart1 cp tp) (hB : pgEnd1 cp tp < tp - 2) :
    pgEnd1 cp tp + 1 - pgStart1 cp tp ≤ 5 := by
  unfold pgStart1 pgEnd1 pgStart0 pgEnd0 at *; split_ifs at * <;> omega

/-! ### List facts about `intRange` and the ellipsis walk -/

theorem intRange_length (a b : Int) : (intRange a b).length = (b + 1 - a).toNat := by
  unfold intRange; rw [List.length_map, List.length_range]

theorem intRange_mem_lb {a b x : Int} (h : x ∈ intRange a b) : a ≤ x := by
  simp only [intRange, List.mem_map, List.mem_range] at h
  obtain ⟨i, hi, rfl⟩ := h
  omega

theorem intRange_mem_ub {a b x : Int} (h : x ∈ intRange a b) : x ≤ b := by
  simp only [intRange, List.mem_map, List.mem_range] at h
  obtain ⟨i, hi, rfl⟩ := h
  omega

theorem intRange_pairwise (a b : Int) : List.Pairwise (· < ·) (intRange a b) := by
  unfold intRange
  exact List.Pairwise.map _ (fun x y h => by omega) (List.pairwise_lt_range _)

theorem intRange_as_range_map (a b : Int) (hab : a ≤ b) :
    intRange a b = (List.range ((b - a).toNat + 1)).map (fun i : Nat => a + (i:Int)) := by
  have h : (b + 1 - a).toNat = (b - a).toNat + 1 := by omega
  unfold intRange
  rw [h]

theorem ewpGo_nil (p : Int) : ewpGo p [] = true := rfl

theorem ewpGo_cons_cons (p x y : Int) (rest : List Int) :
    ewpGo p (x :: y :: rest)
      = if x = -1 then
          (if y = -1 then false else decide (p + 1 < y) && ewpGo y rest)
        else ewpGo x (y :: rest) := by
  rw [ewpGo]

theorem range_map_cons (s : Int) (n : Nat) :
    (List.range (n+1)).map (fun i : Nat => s + (i:Int))
      = s :: (List.range n).map (fun i : Nat => (s + 1) + (i:Int)) := by
  rw [List.range_succ_eq_map, List.map_cons, List.map_map]
  congr 1
  · norm_num
  · congr 1
    funext i
    simp only [Function.comp_apply, Nat.succ_eq_add_one]
    push_cast
    ring

theorem ewpGo_range_append (s : Int) (hs : 0 ≤ s) (n : Nat) (l : List Int) (p : Int) :
    ewpGo p ((List.range (n+1)).map (fun i : Nat => s + (i:Int)) ++ l)
      = ewpGo (s + n) l := by
  induction n generalizing s p with
  | zero =>
      rw [range_map_cons]
      simp only [List.range_zero, List.map_nil, List.nil_append, List.cons_append,
        Nat.cast_zero, add_zero]
      cases l with
      | nil => simp [ewpGo, show ¬ s = -1 by omega]
      | cons z tl =>
          rw [ewpGo_cons_cons, if_neg (by omega : ¬ s = -1)]
  | succ n ih =>
      have key := ih (s + 1) (by omega) s
      rw [range_map_cons (s+1) n, List.cons_append] at key
      rw [range_map_cons s (n+1), List.cons_append, range_map_cons (s+1) n,
        List.cons_append, ewpGo_cons_cons, if_neg (by omega : ¬ s = -1), key]
      have harith : s + 1 + (n : Int) = s + ((n + 1 : Nat) : Int) := by push_cast; ring
      rw [harith]

theorem ewpGo_after (s : Int) (hs : 0 ≤ s) (n : Nat) (l : List Int) :
    ewpGo s ((List.range n).map (fun i : Nat => (s + 1) + (i:Int)) ++ l)
      = ewpGo (s + n) l := by
  cases n with
  | zero => simp
  | succ n =>
      rw [ewpGo_range_append (s+1) (by omega) n l s]
      have harith : s + 1 + (n : Int) = s + ((n + 1 : Nat) : Int) := by push_cast; ring
      rw [harith]

theorem ewp_range_append (s : Int) (hs : 0 ≤ s) (n : Nat) (l : List Int) :
    ellipsisWellPlaced ((List.range (n+1)).map (fun i : Nat => s + (i:Int)) ++ l)
      = ewpGo (s + n) l := by
  rw [range_map_cons, List.cons_append, ellipsisWellPlaced, ewpGo_after s hs n l]
  simp [show ¬ s = -1 by omega]

theorem pagination_small_eq (cp tp : Int) (h : tp ≤ 5) :
    getPaginationRange cp tp = (List.range tp.toNat).map (fun i : Nat => (i : Int)) := by
  have heq : (tp - 1 + 1 - 0).toNat = tp.toNat := by omega
  simp only [getPaginationRange, if_pos h, intRange, heq, zero_add]

theorem pagination_decomp (cp tp : Int) (h6 : 6 ≤ tp) :
    getPaginationRange cp tp
      = [0] ++ (if pgStart1 cp tp > 1 then [(-1 : Int)] else [])
        ++ intRange (pgStart1 cp tp) (pgEnd1 cp tp)
        ++ (if pgEnd1 cp tp < tp - 2 then [(-1 : Int)] else [])
        ++ [tp - 1] := by
  unfold getPaginationRange
  rw [if_neg (by omega : ¬ tp ≤ 5), if_pos (by omega : tp > 1)]

/-- C6: For every pair `(currentPage, totalPages)` with `totalPages ≤ 5`,
`getPaginationRange` returns exactly the list `[0, 1, ..., totalPages-1]`
(empty when `totalPages = 0`) and contains no ellipsis marker. -/
theorem C6_pagination_small (currentPage totalPages : Int) (h : totalPages ≤ 5) :
    getPaginationRange currentPage totalPages
        = (List.range totalPages.toNat).map (fun i : Nat => (i : Int)) ∧
      (-1 : Int) ∉ getPaginationRange currentPage totalPages := by
  refine ⟨pagination_small_eq currentPage totalPages h, ?_⟩
  rw [pagination_small_eq currentPage totalPages h]
  simp only [List.mem_map, List.mem_range]
  rintro ⟨i, -, hi⟩
  omega

/-- Witness for C6 at `(currentPage, totalPages) = (2, 4)`. -/
theorem C6_pagination_small_witness :
    getPaginationRange 2 4 = [0, 1, 2, 3] ∧ (-1 : Int) ∉ getPaginationRange 2 4 := by
  have h := C6_pagination_small 2 4 (by decide)
  exact ⟨by rw [h.1]; decide, h.2⟩

/-- C5: For every `0 ≤ currentPage < totalPages`, the pagination window is
strictly increasing aside from ellipsis markers, has length at most
`2*delta + 5 = 9`, includes the first page `0` and the last page
`totalPages - 1` whenever `totalPages > 5`, and every ellipsis marker sits
between two listed pages with a genuine gap. -/
theorem C5_pagination_window (currentPage totalPages : Int)
    (h0 : 0 ≤ currentPage) (h1 : currentPage < totalPages) :
    List.Pairwise (· < ·)
        ((getPaginationRange currentPage totalPages).filter (fun x => x != -1)) ∧
      (getPaginationRange currentPage totalPages).length ≤ 9 ∧
      (5 < totalPages → (0 : Int) ∈ getPaginationRange currentPage totalPages ∧
        (totalPages - 1) ∈ getPaginationRange currentPage totalPages) ∧
      ellipsisWellPlaced (getPaginationRange currentPage totalPages) = true := by
  by_cases h5 : totalPages ≤ 5
  · have heq := pagination_small_eq currentPage totalPages h5
    refine ⟨?_, ?_, ?_, ?_⟩
    · rw [heq]
      have hfilter : ((List.range totalPages.toNat).map (fun i : Nat => (i : Int))).filter
          (fun x => x != -1) = (List.range totalPages.toNat).map (fun i : Nat => (i : Int)) := by
        apply List.filter_eq_self.mpr
        intro x hx
        simp only [List.mem_map, List.mem_range] at hx
        obtain ⟨i, -, rfl⟩ := hx
        simp only [bne_iff_ne, ne_eq]
        omega
      rw [hfilter]
      exact List.Pairwise.map _ (fun x y h => by omega) (List.pairwise_lt_range _)
    · rw [heq, List.length_map, List.length_range]
      omega
    · intro h5'
      omega
    · have hr : getPaginationRange currentPage totalPages
          = intRange 0 (totalPages - 1) := by
        unfold getPaginationRange
        rw [if_pos h5]
      rw [hr, intRange_as_range_map 0 (totalPages - 1) (by omega)]
      have hwalk := ewp_range_append 0 le_rfl ((totalPages - 1 - 0).toNat) []
      rw [List.append_nil] at hwalk
      rw [hwalk, ewpGo_nil]
  · have h6 : 6 ≤ totalPages := by omega
    have hs1 : 1 ≤ pgStart1 currentPage totalPages := pgStart1_pos currentPage totalPages
    have he : pgEnd1 currentPage totalPages ≤ totalPages - 2 := pgEnd1_ub currentPage totalPages h6
    have hse : pgStart1 currentPage totalPages ≤ pgEnd1 currentPage totalPages :=
      pgStart1_le_pgEnd1 currentPage totalPages h0 h1 h6
    have hw6 : pgEnd1 currentPage totalPages + 1 - pgStart1 currentPage totalPages ≤ 6 :=
      pg_window_le currentPage totalPages h0 h1 h6
    have hw5 := pg_window_le5 currentPage totalPages h0 h1 h6
    set s := pgStart1 currentPage totalPages with hsdef
    set e := pgEnd1 currentPage totalPages with hedef
    set n : Nat := (e - s).toNat with hndef
    have hsn : s + (n : Int) = e := by omega
    refine ⟨?_, ?_, ?_, ?_⟩
    · rw [pagination_decomp currentPage totalPages h6]
      have hfW : (intRange s e).filter (fun x => x != -1) = intRange s e := by
        apply List.filter_eq_self.mpr
        intro x hx
        have := intRange_mem_lb hx
        simp only [bne_iff_ne, ne_eq]
        omega
      have hfA : (if s > 1 then [(-1 : Int)] else []).filter (fun x => x != -1) = [] := by
        split_ifs <;> decide
      have hfB : (if e < totalPages - 2 then [(-1 : Int)] else []).filter
          (fun x => x != -1) = [] := by
        split_ifs <;> decide
      rw [List.filter_append, List.filter_append, List.filter_append, List.filter_append,
        hfW, hfA, hfB]
      have hf0 : ([(0 : Int)]).filter (fun x => x != -1) = [0] := by decide
      have hfL : ([(totalPages - 1 : Int)]).filter (fun x => x != -1) = [totalPages - 1] := by
        have hne : ((totalPages - 1 : Int) != -1) = true := by
          simp only [bne_iff_ne, ne_eq]; omega
        simp [List.filter, hne]
      rw [hf0, hfL]
      simp only [List.append_nil, List.nil_append, List.cons_append, List.append_assoc]
      refine List.pairwise_cons.mpr ⟨?_, ?_⟩
      · intro y hy
        rcases List.mem_append.mp hy with h | h
        · have := intRange_mem_lb h; omega
        · simp only [List.mem_singleton] at h; omega
      · refine List.pairwise_append.mpr
          ⟨intRange_pairwise s e, List.pairwise_singleton _ _, ?_⟩
        intro x hx y hy
        simp only [List.mem_singleton] at hy
        have := intRange_mem_ub hx
        omega
    · rw [pagination_decomp currentPage totalPages h6]
      simp only [List.length_append, List.length_singleton, intRange_length]
      split_ifs with hA hB hB
      · have := hw5 hA hB; simp; omega
      · simp; omega
      · simp; omega
      · simp; omega
    · intro h5'
      rw [pagination_decomp currentPage totalPages h6]
      constructor
      · simp
      · simp
    · rw [pagination_decomp currentPage totalPages h6, intRange_as_range_map s e hse, ← hndef]
      by_cases hA : s > 1 <;> by_cases hB : e < totalPages - 2
      · rw [if_pos hA, if_pos hB]
        simp only [List.cons_append, List.nil_append, List.append_assoc]
        rw [ellipsisWellPlaced, range_map_cons, List.cons_append,
          ewpGo_cons_cons, if_pos rfl, if_neg (by omega : ¬ s = -1),
          ewpGo_after s (by omega) n, hsn,
          ewpGo_cons_cons, if_pos rfl, if_neg (by omega : ¬ totalPages - 1 = -1), ewpGo_nil]
        simp only [Bool.and_eq_true, decide_eq_true_eq, bne_iff_ne, ne_eq, and_true, true_and]
        omega
      · rw [if_pos hA, if_neg hB]
        simp only [List.cons_append, List.nil_append, List.append_assoc]
        rw [ellipsisWellPlaced, range_map_cons, List.cons_append,
          ewpGo_cons_cons, if_pos rfl, if_neg (by omega : ¬ s = -1),
          ewpGo_after s (by omega) n, hsn,
          ewpGo, if_neg (by omega : ¬ totalPages - 1 = -1)]
        simp only [Bool.and_eq_true, decide_eq_true_eq, bne_iff_ne, ne_eq, and_true, true_and]
        omega
      · rw [if_neg hA, if_pos hB]
        simp only [List.cons_append, List.nil_append, List.append_assoc]
        rw [ellipsisWellPlaced, ewpGo_range_append s (by omega) n _ 0, hsn,
          ewpGo_cons_cons, if_pos rfl, if_neg (by omega : ¬ totalPages - 1 = -1), ewpGo_nil]
        simp only [Bool.and_eq_true, decide_eq_true_eq, bne_iff_ne, ne_eq, and_true, true_and]
        omega
      · rw [if_neg hA, if_neg hB]
        simp only [List.cons_append, List.nil_append, List.append_assoc]
        rw [ellipsisWellPlaced, ewpGo_range_append s (by omega) n _ 0, hsn,
          ewpGo, if_neg (by omega : ¬ totalPages - 1 = -1)]
        simp

/-- Witness for C5 at `(currentPage, totalPages) = (10, 20)`. -/
theorem C5_pagination_window_witness :
    List.Pairwise (· < ·) ((getPaginationRange 10 20).filter (fun x => x != -1)) ∧
      (getPaginationRange 10 20).length ≤ 9 ∧
      ((5 : Int) < 20 → (0 : Int) ∈ getPaginationRange 10 20 ∧
        ((20 : Int) - 1) ∈ getPaginationRange 10 20) ∧
      ellipsisWellPlaced (getPaginationRange 10 20) = true :=
  C5_pagination_window 10 20 (by decide) (by decide)

/-! ## Sort controller (`handleSort` in `users-table.tsx`)

JS strings are modelled as `String`; `column.startsWith('-')` and
`column.slice(1)` act on UTF-16 units, modelled through `String.data`. -/

/-- The default sort of the users table, `'-created_at'`. -/
def defaultSort : String := "-created_at"

/-- Model of `column.startsWith('-')`. -/
def startsWithDash (s : String) : Bool :=
  match s.data with
  | '-' :: _ => true
  | _ => false

/-- Model of `column.slice(1)`. -/
def sliceFrom1 (s : String) : String := ⟨s.data.drop 1⟩

/-- Shallow embedding of `handleSort(column, fromDropdown)`: computes the
new value of `filters.sort` from the current one.  (The `isSorting`
re-entrancy lock only suppresses calls and is not part of the new-sort
computation.) -/
def handleSort (currentSort column : String) (fromDropdown : Bool) : String :=
  let cleanColumn := if startsWithDash column then sliceFrom1 column else column
  if fromDropdown then
    if startsWithDash column then
      if currentSort = "-" ++ cleanColumn then defaultSort else "-" ++ cleanColumn
    else
      if currentSort = cleanColumn then defaultSort else cleanColumn
  else
    if currentSort = cleanColumn then "-" ++ cleanColumn
    else if currentSort = "-" ++ cleanColumn then defaultSort
    else cleanColumn

theorem startsWithDash_dash (c : String) : startsWithDash ("-" ++ c) = true := by
  simp [startsWithDash, String.data_append]

theorem sliceFrom1_dash (c : String) : sliceFrom1 ("-" ++ c) = c := by
  simp [sliceFrom1, String.data_append]

theorem dash_append_ne (c : String) (hc : startsWithDash c = false) : "-" ++ c ≠ c := by
  intro he
  have hd : startsWithDash ("-" ++ c) = true := startsWithDash_dash c
  rw [he, hc] at hd
  exact absurd hd (by simp)

/-- C7: starting from a sort unrelated to column `c`, header clicks cycle
`sort` through `c` (ascending), `-c` (descending), then back to the default
`-created_at`; a dropdown click on the already-active directional target
reverts directly to the default, while a dropdown click on an inactive
target selects it. -/
theorem C7_sort_cycle (c s : String) (hc : startsWithDash c = false)
    (h1 : s ≠ c) (h2 : s ≠ "-" ++ c) :
    handleSort s c false = c ∧
    handleSort (handleSort s c false) c false = "-" ++ c ∧
    handleSort (handleSort (handleSort s c false) c false) c false = defaultSort ∧
    handleSort ("-" ++ c) ("-" ++ c) true = defaultSort ∧
    handleSort c c true = defaultSort ∧
    handleSort s ("-" ++ c) true = "-" ++ c ∧
    handleSort s c true = c := by
  have hclean : (if startsWithDash c then sliceFrom1 c else c) = c := by rw [hc]; rfl
  have hstep1 : handleSort s c false = c := by
    unfold handleSort
    rw [hclean]
    simp [h1, h2]
  have hstep2 : handleSort c c false = "-" ++ c := by
    unfold handleSort
    rw [hclean]
    simp
  have hstep3 : handleSort ("-" ++ c) c false = defaultSort := by
    unfold handleSort
    rw [hclean]
    simp [dash_append_ne c hc]
  refine ⟨hstep1, ?_, ?_, ?_, ?_, ?_, ?_⟩
  · rw [hstep1]; exact hstep2
  · rw [hstep1, hstep2]; exact hstep3
  · unfold handleSort
    rw [startsWithDash_dash, sliceFrom1_dash]
    simp
  · unfold handleSort
    rw [hclean, hc]
    simp
  · unfold handleSort
    rw [startsWithDash_dash, sliceFrom1_dash]
    simp [h2]
  · unfold handleSort
    rw [hclean, hc]
    simp [h1]

/-- Witness for C7 at column `'username'` from the default sort. -/
theorem C7_sort_cycle_witness :
    handleSort defaultSort ( "username" ) false = "username" ∧
    handleSort (handleSort defaultSort ( "username" ) false) ( "username" ) false
      = "-" ++ "username" ∧
    handleSort (handleSort (handleSort defaultSort ( "username" ) false) ( "username" ) false)
      ( "username" ) false = defaultSort ∧
    handleSort ("-" ++ "username") ("-" ++ "username") true = defaultSort ∧
    handleSort ( "username" ) ( "username" ) true = defaultSort ∧
    handleSort defaultSort ("-" ++ "username") true = "-" ++ "username" ∧
    handleSort defaultSort ( "username" ) true = "username" :=
  C7_sort_cycle ( "username" ) defaultSort (by decide) (by decide) (by decide)

/-! ## Debounced search (`useDebouncedSearch` in `use-debounced-search.ts`)

The hook wraps `setDebouncedSearch(value || undefined)` in an es-toolkit
trailing-edge `debounce(…, delay)`.  We model a session as the
time-ordered list of `(time, value)` arguments passed to `setSearch`; a
call's pending timer is cancelled exactly when the next call arrives
strictly before `time + delay`, and an uncancelled timer commits at
`time + delay`. -/

/-- `value || undefined`: the hook commits `undefined` for the empty string. -/
def emptyToNone (v : String) : Option String := if v = "" then none else some v

/-- The committed `(time, value)` events of `debounce`d
`setDebouncedSearch` for a time-ordered call list. -/
def debounceCommits (delay : Nat) : List (Nat × String) → List (Nat × Option String)
  | [] => []
  | (t, v) :: rest =>
    match rest with
    | [] => [(t + delay, emptyToNone v)]
    | (t2, _) :: _ =>
        (if t + delay ≤ t2 then [(t + delay, emptyToNone v)] else [])
          ++ debounceCommits delay rest

/-- C3 counterexample: when the last `setSearch` call passes the empty
string, the single commit carries `undefined` (`none`), not the empty
string: the committed state is indistinguishable from the initial unset
state, contradicting the claim that the empty string is committed as a
value distinct from `undefined`. -/
theorem C3_debounce_counterexample :
    debounceCommits 300 [(0, "a"), (100, "")] = [(400, none)] ∧
      (debounceCommits 300 [(0, "a"), (100, "")]).map Prod.snd ≠ [some ( "" )] := by
  constructor
  · rfl
  · decide

/-- C3 (amended): for every non-empty call sequence whose consecutive gaps
are all shorter than the debounce delay, exactly one commit happens, at
`delay` after the final call, carrying the final value — except that a
final empty string is committed as `undefined` (unset), not as a distinct
empty-string value. -/
theorem C3_debounce_last_wins (delay : Nat) (calls : List (Nat × String))
    (hne : calls ≠ [])
    (hgap : List.Chain' (fun a b => a.1 < b.1 ∧ b.1 < a.1 + delay) calls) :
    debounceCommits delay calls
      = [((calls.getLast hne).1 + delay, emptyToNone (calls.getLast hne).2)] := by
  induction calls with
  | nil => exact absurd rfl hne
  | cons hd rest ih =>
    cases rest with
    | nil =>
        obtain ⟨t, v⟩ := hd
        simp [debounceCommits]
    | cons hd2 tl =>
        rw [List.chain'_cons] at hgap
        obtain ⟨⟨hlt, hlt2⟩, hrest⟩ := hgap
        obtain ⟨t, v⟩ := hd
        obtain ⟨t2, v2⟩ := hd2
        rw [debounceCommits, if_neg (by simp at hlt2 ⊢; omega)]
        rw [List.nil_append, ih (by simp) hrest]
        simp [List.getLast_cons]

/-- Witness for C3 (amended) with delay 300 and calls at times 0 and 100. -/
theorem C3_debounce_last_wins_witness :
    debounceCommits 300 [(0, "a"), (100, "ab")] = [(400, emptyToNone ( "ab" ))] := by
  have h := C3_debounce_last_wins 300 [(0, "a"), (100, "ab")] (by simp)
    (by simp [List.chain'_cons])
  rw [h]
  rfl

/-! ## JS number–string conversions (`toString`, `parseInt`)

Used by the URL synchronizer: page/limit/group values are written with
`Number.prototype.toString` and read back with `parseInt(x, 10)`;
`none` models `NaN`. -/


/-- The character for decimal digit `d`. -/
def digitChar (d : Nat) : Char := Char.ofNat (48 + d)

/-- Numeric value of a digit character (JS `charCodeAt - 48`). -/
def charVal (c : Char) : Nat := c.toNat - 48

/-- Little-endian digit characters of `n`, with explicit fuel. -/
def natDigitsRevGo : Nat → Nat → List Char
  | 0, _ => []
  | _ + 1, 0 => []
  | f + 1, n + 1 => digitChar ((n + 1) % 10) :: natDigitsRevGo f ((n + 1) / 10)

/-- Model of JS `Number.prototype.toString` for non-negative integers. -/
def natToString (n : Nat) : String :=
  if n = 0 then ⟨['0']⟩ else ⟨(natDigitsRevGo n n).reverse⟩

/-- Accumulating digit-prefix value, as JS `parseInt` computes it. -/
def digitsToNat (ds : List Char) : Nat := ds.foldl (fun a c => 10 * a + charVal c) 0

/-- Value of the longest digit prefix; `none` when there is none (`NaN`). -/
def parseDigits (cs : List Char) : Option Nat :=
  match cs.takeWhile (fun c => c.isDigit) with
  | [] => none
  | ds => some (digitsToNat ds)

/-- Sign handling of JS `parseInt` after whitespace stripping. -/
def parseIntCore : List Char → Option Int
  | '-' :: rest => (parseDigits rest).map (fun n => -(n : Int))
  | '+' :: rest => (parseDigits rest).map (fun n => (n : Int))
  | cs => (parseDigits cs).map (fun n => (n : Int))

/-- Model of JS `parseInt(s, 10)`: skip whitespace, optional sign, value of
the longest digit prefix; `none` models `NaN`. -/
def parseIntJS (s : String) : Option Int :=
  parseIntCore (s.data.dropWhile (fun c => c.isWhitespace))

theorem charVal_digitChar {d : Nat} (h : d < 10) : charVal (digitChar d) = d := by
  interval_cases d <;> decide

theorem digitChar_isDigit {d : Nat} (h : d < 10) : (digitChar d).isDigit = true := by
  interval_cases d <;> decide

theorem digitChar_not_ws {d : Nat} (h : d < 10) : (digitChar d).isWhitespace = false := by
  interval_cases d <;> decide

theorem digitChar_ne_dash {d : Nat} (h : d < 10) : digitChar d ≠ '-' := by
  interval_cases d <;> decide

theorem digitChar_ne_plus {d : Nat} (h : d < 10) : digitChar d ≠ '+' := by
  interval_cases d <;> decide

theorem natDigitsRevGo_mem {f n : Nat} {c : Char} (h : c ∈ natDigitsRevGo f n) :
    ∃ d, d < 10 ∧ c = digitChar d := by
  induction f generalizing n with
  | zero => simp [natDigitsRevGo] at h
  | succ f ih =>
      cases n with
      | zero => simp [natDigitsRevGo] at h
      | succ n =>
          rw [natDigitsRevGo] at h
          rcases List.mem_cons.mp h with h | h
          · exact ⟨(n + 1) % 10, Nat.mod_lt _ (by omega), h⟩
          · exact ih h

theorem natDigitsRevGo_foldr {f n : Nat} (h : n ≤ f) :
    (natDigitsRevGo f n).foldr (fun c a => 10 * a + charVal c) 0 = n := by
  induction f generalizing n with
  | zero =>
      have : n = 0 := by omega
      subst this
      rfl
  | succ f ih =>
      cases n with
      | zero => rfl
      | succ n =>
          rw [natDigitsRevGo, List.foldr_cons]
          have hdiv : (n + 1) / 10 ≤ f := by
            have := Nat.div_lt_self (Nat.succ_pos n) (by omega : 1 < 10)
            omega
          rw [ih hdiv, charVal_digitChar (Nat.mod_lt _ (by omega))]
          omega

theorem digitsToNat_reverse (l : List Char) :
    digitsToNat l.reverse = l.foldr (fun c a => 10 * a + charVal c) 0 := by
  unfold digitsToNat
  rw [List.foldl_reverse]

theorem natDigitsRevGo_ne_nil {n : Nat} (h : 0 < n) : natDigitsRevGo n n ≠ [] := by
  cases n with
  | zero => omega
  | succ n => rw [natDigitsRevGo]; simp

theorem dropWhile_eq_self_of_all {p : Char → Bool} {l : List Char}
    (h : ∀ c ∈ l, p c = false) : l.dropWhile p = l := by
  cases l with
  | nil => rfl
  | cons a t => rw [List.dropWhile_cons, h a (List.mem_cons_self a t)]; simp

theorem takeWhile_eq_self_of_all {p : Char → Bool} {l : List Char}
    (h : ∀ c ∈ l, p c = true) : l.takeWhile p = l := by
  induction l with
  | nil => rfl
  | cons a t ih =>
      rw [List.takeWhile_cons, h a (List.mem_cons_self a t), if_pos rfl]
      rw [ih (fun c hc => h c (List.mem_cons_of_mem a hc))]

theorem parseDigits_of_all {cs : List Char} (hne : cs ≠ [])
    (h : ∀ c ∈ cs, c.isDigit = true) : parseDigits cs = some (digitsToNat cs) := by
  unfold parseDigits
  rw [takeWhile_eq_self_of_all h]
  cases cs with
  | nil => exact absurd rfl hne
  | cons a t => rfl

theorem parseIntCore_of_digits {cs : List Char} (hne : cs ≠ [])
    (h : ∀ c ∈ cs, c.isDigit = true) :
    parseIntCore cs = some ((digitsToNat cs : Nat) : Int) := by
  have hd : ∀ c ∈ cs, c ≠ '-' ∧ c ≠ '+' := by
    intro c hc
    have := h c hc
    constructor <;> (intro he; subst he; simp at this)
  have hcore : parseIntCore cs = (parseDigits cs).map (fun n => (n : Int)) := by
    unfold parseIntCore
    split
    · exact absurd rfl (hd _ (List.mem_cons_self _ _)).1
    · exact absurd rfl (hd _ (List.mem_cons_self _ _)).2
    · rfl
  rw [hcore, parseDigits_of_all hne h]
  rfl

theorem natToString_data_mem {m : Nat} {c : Char} (hc : c ∈ (natToString m).data) :
    ∃ d, d < 10 ∧ c = digitChar d := by
  unfold natToString at hc
  by_cases hm : m = 0
  · subst hm; simp at hc; subst hc; exact ⟨0, by omega, rfl⟩
  · rw [if_neg hm] at hc
    exact natDigitsRevGo_mem (List.mem_reverse.mp hc)

theorem natToString_data_digits :
    ∀ m : Nat, ∀ c ∈ (natToString m).data, c.isDigit = true := by
  intro m c hc
  obtain ⟨d, hd, rfl⟩ := natToString_data_mem hc
  exact digitChar_isDigit hd

theorem natToString_data_ne_nil (m : Nat) : (natToString m).data ≠ [] := by
  unfold natToString
  by_cases hm : m = 0
  · subst hm; simp
  · rw [if_neg hm]
    simpa using natDigitsRevGo_ne_nil (Nat.pos_of_ne_zero hm)

theorem digitsToNat_natToString (m : Nat) : digitsToNat (natToString m).data = m := by
  unfold natToString
  by_cases hm : m = 0
  · subst hm; decide
  · rw [if_neg hm]
    show digitsToNat (natDigitsRevGo m m).reverse = m
    rw [digitsToNat_reverse, natDigitsRevGo_foldr (le_refl m)]

theorem parseIntJS_natToString (m : Nat) : parseIntJS (natToString m) = some (m : Int) := by
  unfold parseIntJS
  have hdigits := natToString_data_digits m
  have hdw : (natToString m).data.dropWhile (fun c => c.isWhitespace)
      = (natToString m).data := by
    apply dropWhile_eq_self_of_all
    intro c hc
    obtain ⟨d, hd, rfl⟩ := natToString_data_mem hc
    exact digitChar_not_ws hd
  rw [hdw, parseIntCore_of_digits (natToString_data_ne_nil m) hdigits,
    digitsToNat_natToString]

theorem natToString_ne_empty (m : Nat) : natToString m ≠ ⟨[]⟩ := by
  intro h
  exact natToString_data_ne_nil m (congrArg String.data h)

/-! ## URL filter state (`parseURLParams` and the write-back effect in `users-table.tsx`)

A decoded query string is a key–value list (`URLSearchParams` preserves
insertion order; percent-encoding round-trips and is abstracted away).
`get` returns the first value of a key, `getAll` every value in order,
`set` replaces the first occurrence (dropping later duplicates) or
appends, `append` appends. -/

/-- A decoded query string: ordered key–value pairs. -/
abbrev Query := List (String × String)

/-- `URLSearchParams.get`: first value for `k`, `none` for JS `null`. -/
def getParam (q : Query) (k : String) : Option String :=
  (q.find? (fun p => p.1 == k)).map (fun p => p.2)

/-- `URLSearchParams.getAll`: every value for `k`, in order. -/
def getAllParam (q : Query) (k : String) : List String :=
  (q.filter (fun p => p.1 == k)).map (fun p => p.2)

/-- `URLSearchParams.set`. -/
def uspSet : Query → String → String → Query
  | [], k, v => [(k, v)]
  | (k', v') :: rest, k, v =>
      if k' = k then (k, v) :: rest.filter (fun p => p.1 != k)
      else (k', v') :: uspSet rest k v

/-- `URLSearchParams.append`. -/
def uspAppend (q : Query) (k v : String) : Query := q ++ [(k, v)]

/-- The user-status enum of the users list. -/
inductive UserStatus where
  | active
  | disabled
  | limited
  | expired
  | on_hold
deriving DecidableEq, Repr

/-- The wire string of a `UserStatus`. -/
def statusToString : UserStatus → String
  | .active => "active"
  | .disabled => "disabled"
  | .limited => "limited"
  | .expired => "expired"
  | .on_hold => "on_hold"

/-- `validStatuses` of `parseURLParams`. -/
def validStatuses : List UserStatus :=
  [.active, .disabled, .limited, .expired, .on_hold]

/-- `statusParam && validStatuses.includes(statusParam) ? statusParam : undefined`. -/
def parseStatus (o : Option String) : Option UserStatus :=
  match o with
  | none => none
  | some s => if s = "" then none else validStatuses.find? (fun st => statusToString st == s)

/-- Query-string keys used by the users table. -/
def pageKey : String := "page"

def limitKey : String := "limit"

def sortKey : String := "sort"

def searchKey : String := "search"

def statusKey : String := "status"

def adminKey : String := "admin"

def groupKey : String := "group"

def isProtocolKey : String := "is_protocol"

def trueStr : String := "true"

/-- JS truthiness of an optional string (`undefined` and `''` are falsy). -/
def strTruthy : Option String → Bool
  | none => false
  | some s => s != ""

/-- The `filters` component state of `UsersTable` (the fields the URL
synchronizer reads and writes; `load_sub` is constant and omitted). -/
structure UsersFilters where
  limit : Nat
  sort : String
  offset : Nat
  search : Option String
  proxy_id : Option String
  is_protocol : Bool
  status : Option UserStatus
  admin : Option (List String)
  group : Option (List Nat)
deriving DecidableEq, Repr

/-- The URL-significant filter state of the users list view, as the claim
states it: internal 0-indexed page plus the persisted fields. -/
structure FilterState where
  page : Nat
  limit : Nat
  sort : String
  search : Option String
  status : Option UserStatus
  admin : Option (List String)
  group : Option (List Nat)
  isProtocol : Bool
deriving DecidableEq, Repr

/-- `getInitialStateFromURL` (users-table.tsx): the component `filters`
derived from parsed URL state.  `proxy_id` is populated exactly when
`is_protocol` is set and a search value exists. -/
def filtersOfState (fs : FilterState) : UsersFilters :=
  { limit := fs.limit
    sort := fs.sort
    offset := fs.page * fs.limit
    search := fs.search
    proxy_id := if fs.isProtocol && strTruthy fs.search then fs.search else none
    is_protocol := fs.isProtocol
    status := fs.status
    admin := fs.admin
    group := fs.group }

/-- The URL write-back effect of `UsersTable` (lines 128–161): builds the
query string from `currentPage`, `itemsPerPage` and `filters`, omitting
every field equal to its default. -/
def encodeURLParams (currentPage itemsPerPage defaultLimit : Nat)
    (f : UsersFilters) : Query :=
  let q1 := if currentPage > 0
    then uspSet [] pageKey (natToString (currentPage + 1)) else []
  let q2 := if itemsPerPage ≠ defaultLimit
    then uspSet q1 limitKey (natToString itemsPerPage) else q1
  let q3 := if f.sort ≠ "" ∧ f.sort ≠ defaultSort then uspSet q2 sortKey f.sort else q2
  let q4 := match f.search with
    | some s => if s ≠ "" then uspSet q3 searchKey s else q3
    | none => q3
  let q5 := match f.proxy_id with
    | some p =>
        if p ≠ "" then uspSet (uspSet q4 searchKey p) isProtocolKey trueStr
        else if f.is_protocol then uspSet q4 isProtocolKey trueStr else q4
    | none => if f.is_protocol then uspSet q4 isProtocolKey trueStr else q4
  let q6 := match f.status with
    | some st => uspSet q5 statusKey (statusToString st)
    | none => q5
  let q7 := match f.admin with
    | some l => if l.length > 0 then l.foldl (fun q a => uspAppend q adminKey a) q6 else q6
    | none => q6
  let q8 := match f.group with
    | some l => if l.length > 0
        then l.foldl (fun q g => uspAppend q groupKey (natToString g)) q7 else q7
    | none => q7
  q8

/-- The result record of `parseURLParams`; `page = none` models `NaN`. -/
structure URLFilters where
  page : Option Int
  limit : Int
  sort : String
  search : Option String
  status : Option UserStatus
  admin : Option (List String)
  group : Option (List Int)
  isProtocol : Bool
deriving DecidableEq, Repr

/-- Shallow embedding of `parseURLParams(searchParams, defaultItemsPerPage)`
(users-table.tsx lines 34–61). -/
def parseURLParams (q : Query) (defaultItemsPerPage : Nat) : URLFilters :=
  let pageParam := getParam q pageKey
  let page : Option Int :=
    match pageParam with
    | none => some 0
    | some s =>
        if s = "" then some 0
        else (parseIntJS s).map (fun n => max 0 (n - 1))
  let limitStr : String :=
    match getParam q limitKey with
    | none => natToString defaultItemsPerPage
    | some s => if s = "" then natToString defaultItemsPerPage else s
  let limit : Int :=
    match parseIntJS limitStr with
    | some l => l
    | none => 0
  let sort : String :=
    match getParam q sortKey with
    | none => defaultSort
    | some s => if s = "" then defaultSort else s
  let search : Option String :=
    match getParam q searchKey with
    | none => none
    | some s => if s = "" then none else some s
  let status := parseStatus (getParam q statusKey)
  let admin := (getAllParam q adminKey).filter (fun s => s != "")
  let group := (getAllParam q groupKey).filterMap parseIntJS
  let isProtocol := getParam q isProtocolKey == some trueStr
  { page := page.map (fun p => max 0 p)
    limit := if limit > 0 then limit else (defaultItemsPerPage : Int)
    sort := sort
    search := search
    status := status
    admin := if admin.length > 0 then some admin else none
    group := if group.length > 0 then some group else none
    isProtocol := isProtocol }

/-! ### Closed form of the write-back query -/

theorem uspSet_append_absent {q : Query} {k : String} (h : ∀ p ∈ q, p.1 ≠ k) (v : String) :
    uspSet q k v = q ++ [(k, v)] := by
  induction q with
  | nil => rfl
  | cons hd tl ih =>
      obtain ⟨k', v'⟩ := hd
      rw [uspSet, if_neg (h (k', v') (List.mem_cons_self _ _)),
        ih (fun p hp => h p (List.mem_cons_of_mem _ hp))]
      rfl

theorem uspSet_set_last {q : Query} {k : String} (h : ∀ p ∈ q, p.1 ≠ k) (v w : String) :
    uspSet (q ++ [(k, w)]) k v = q ++ [(k, v)] := by
  induction q with
  | nil => simp [uspSet]
  | cons hd tl ih =>
      obtain ⟨k', v'⟩ := hd
      rw [List.cons_append, uspSet, if_neg (h (k', v') (List.mem_cons_self _ _)),
        ih (fun p hp => h p (List.mem_cons_of_mem _ hp))]
      rfl

theorem foldl_uspAppend {α : Type} (key : String) (f : α → String) :
    ∀ (l : List α) (q : Query),
      l.foldl (fun acc a => uspAppend acc key (f a)) q = q ++ l.map (fun a => (key, f a))
  | [], q => by simp
  | a :: t, q => by
      rw [List.foldl_cons, foldl_uspAppend key f t (uspAppend q key (f a))]
      simp [uspAppend]

/-- The `page` entry of the written query. -/
def pageBlock (page : Nat) : Query :=
  if page > 0 then [(pageKey, natToString (page + 1))] else []

/-- The `limit` entry of the written query. -/
def limitBlock (limit d : Nat) : Query :=
  if limit ≠ d then [(limitKey, natToString limit)] else []

/-- The `sort` entry of the written query. -/
def sortBlock (sort : String) : Query :=
  if sort ≠ "" ∧ sort ≠ defaultSort then [(sortKey, sort)] else []

/-- The `search` entry of the written query. -/
def searchBlock : Option String → Query
  | some s => if s ≠ "" then [(searchKey, s)] else []
  | none => []

/-- The `is_protocol` entry of the written query. -/
def protocolBlock (b : Bool) : Query := if b then [(isProtocolKey, trueStr)] else []

/-- The `status` entry of the written query. -/
def statusBlock : Option UserStatus → Query
  | some st => [(statusKey, statusToString st)]
  | none => []

/-- The `admin` entries of the written query. -/
def adminBlock : Option (List String) → Query
  | some l => l.map (fun a => (adminKey, a))
  | none => []

/-- The `group` entries of the written query. -/
def groupBlock : Option (List Nat) → Query
  | some l => l.map (fun g => (groupKey, natToString g))
  | none => []

/-- The written query of a filter state, as a plain concatenation. -/
def queryOfState (d : Nat) (fs : FilterState) : Query :=
  pageBlock fs.page ++ limitBlock fs.limit d ++ sortBlock fs.sort
    ++ searchBlock fs.search ++ protocolBlock fs.isProtocol ++ statusBlock fs.status
    ++ adminBlock fs.admin ++ groupBlock fs.group

theorem pageBlock_keys {page : Nat} : ∀ p ∈ pageBlock page, p.1 = pageKey := by
  unfold pageBlock; split_ifs <;> simp

theorem limitBlock_keys {limit d : Nat} : ∀ p ∈ limitBlock limit d, p.1 = limitKey := by
  unfold limitBlock; split_ifs <;> simp

theorem sortBlock_keys {sort : String} : ∀ p ∈ sortBlock sort, p.1 = sortKey := by
  unfold sortBlock; split_ifs <;> simp

theorem searchBlock_keys {o : Option String} : ∀ p ∈ searchBlock o, p.1 = searchKey := by
  cases o with
  | none => simp [searchBlock]
  | some s =>
      simp only [searchBlock]
      split_ifs <;> simp

theorem protocolBlock_keys {b : Bool} : ∀ p ∈ protocolBlock b, p.1 = isProtocolKey := by
  unfold protocolBlock; split_ifs <;> simp

theorem statusBlock_keys {o : Option UserStatus} : ∀ p ∈ statusBlock o, p.1 = statusKey := by
  unfold statusBlock
  cases o <;> simp

theorem adminBlock_keys {o : Option (List String)} : ∀ p ∈ adminBlock o, p.1 = adminKey := by
  unfold adminBlock
  cases o with
  | none => simp
  | some l =>
      intro p hp
      obtain ⟨a, _, rfl⟩ := List.mem_map.mp hp
      rfl

theorem groupBlock_keys {o : Option (List Nat)} : ∀ p ∈ groupBlock o, p.1 = groupKey := by
  unfold groupBlock
  cases o with
  | none => simp
  | some l =>
      intro p hp
      obtain ⟨a, _, rfl⟩ := List.mem_map.mp hp
      rfl


theorem encode_eq_queryOfState (d : Nat) (fs : FilterState)
    (hsearch : fs.search ≠ some ( "" )) :
    encodeURLParams fs.page fs.limit d (filtersOfState fs) = queryOfState d fs := by
  unfold encodeURLParams filtersOfState queryOfState
  dsimp only
  have e1 : (if fs.page > 0 then uspSet [] pageKey (natToString (fs.page + 1)) else [])
      = pageBlock fs.page := by
    unfold pageBlock
    split_ifs <;> rfl
  have hk1 : ∀ p ∈ pageBlock fs.page, p.1 ≠ limitKey := by
    intro p hp
    rw [pageBlock_keys p hp]
    decide
  have e2 : (if fs.limit ≠ d then uspSet (pageBlock fs.page) limitKey (natToString fs.limit)
        else pageBlock fs.page)
      = pageBlock fs.page ++ limitBlock fs.limit d := by
    unfold limitBlock
    split_ifs
    · rw [uspSet_append_absent hk1]
    · simp
  have hk2 : ∀ p ∈ pageBlock fs.page ++ limitBlock fs.limit d, p.1 ≠ sortKey := by
    intro p hp
    rcases List.mem_append.mp hp with h | h
    · rw [pageBlock_keys p h]; decide
    · rw [limitBlock_keys p h]; decide
  have e3 : (if fs.sort ≠ "" ∧ fs.sort ≠ defaultSort
        then uspSet (pageBlock fs.page ++ limitBlock fs.limit d) sortKey fs.sort
        else pageBlock fs.page ++ limitBlock fs.limit d)
      = pageBlock fs.page ++ limitBlock fs.limit d ++ sortBlock fs.sort := by
    unfold sortBlock
    split_ifs
    · rw [uspSet_append_absent hk2, List.append_assoc]
    · simp
  rw [e1, e2, e3]
  set B3 : Query := pageBlock fs.page ++ limitBlock fs.limit d ++ sortBlock fs.sort with hB3
  have hkB3 : ∀ p ∈ B3, p.1 = pageKey ∨ p.1 = limitKey ∨ p.1 = sortKey := by
    intro p hp
    rw [hB3] at hp
    simp only [List.mem_append] at hp
    rcases hp with (hp | hp) | hp
    · exact Or.inl (pageBlock_keys p hp)
    · exact Or.inr (Or.inl (limitBlock_keys p hp))
    · exact Or.inr (Or.inr (sortBlock_keys p hp))
  have hkB3s : ∀ p ∈ B3, p.1 ≠ searchKey := by
    intro p hp
    rcases hkB3 p hp with h | h | h <;> rw [h] <;> decide
  have estat : ∀ (Q : Query), (∀ p ∈ Q, p.1 ≠ statusKey) →
      (match fs.status with
        | some st => uspSet Q statusKey (statusToString st)
        | none => Q) = Q ++ statusBlock fs.status := by
    intro Q hQ
    cases fs.status with
    | none => simp [statusBlock]
    | some st =>
        simp only [statusBlock]
        rw [uspSet_append_absent hQ]
  have eadm : ∀ (Q : Query),
      (match fs.admin with
        | some l => if l.length > 0 then l.foldl (fun q a => uspAppend q adminKey a) Q else Q
        | none => Q) = Q ++ adminBlock fs.admin := by
    intro Q
    cases fs.admin with
    | none => simp [adminBlock]
    | some l =>
        simp only [adminBlock]
        split_ifs with h
        · exact foldl_uspAppend adminKey (fun a => a) l Q
        · have hl : l = [] := List.length_eq_zero.mp (by omega)
          subst hl
          simp
  have egrp : ∀ (Q : Query),
      (match fs.group with
        | some l => if l.length > 0
            then l.foldl (fun q g => uspAppend q groupKey (natToString g)) Q else Q
        | none => Q) = Q ++ groupBlock fs.group := by
    intro Q
    cases fs.group with
    | none => simp [groupBlock]
    | some l =>
        simp only [groupBlock]
        split_ifs with h
        · exact foldl_uspAppend groupKey natToString l Q
        · have hl : l = [] := List.length_eq_zero.mp (by omega)
          subst hl
          simp
  have emid : (match (if (fs.isProtocol && strTruthy fs.search) = true then fs.search else none) with
        | some p =>
            if p ≠ "" then
              uspSet (uspSet (match fs.search with
                | some s => if s ≠ "" then uspSet B3 searchKey s else B3
                | none => B3) searchKey p) isProtocolKey trueStr
            else if fs.isProtocol = true
              then uspSet (match fs.search with
                | some s => if s ≠ "" then uspSet B3 searchKey s else B3
                | none => B3) isProtocolKey trueStr
              else (match fs.search with
                | some s => if s ≠ "" then uspSet B3 searchKey s else B3
                | none => B3)
        | none => if fs.isProtocol = true
            then uspSet (match fs.search with
              | some s => if s ≠ "" then uspSet B3 searchKey s else B3
              | none => B3) isProtocolKey trueStr
            else (match fs.search with
              | some s => if s ≠ "" then uspSet B3 searchKey s else B3
              | none => B3))
      = B3 ++ searchBlock fs.search ++ protocolBlock fs.isProtocol := by
    cases hs : fs.search with
    | none =>
        cases hb : fs.isProtocol with
        | false => simp [strTruthy, searchBlock, protocolBlock]
        | true =>
            have e5 : uspSet B3 isProtocolKey trueStr = B3 ++ [(isProtocolKey, trueStr)] := by
              apply uspSet_append_absent
              intro p hp
              rcases hkB3 p hp with h | h | h <;> rw [h] <;> decide
            simp [strTruthy, searchBlock, protocolBlock, e5]
    | some s =>
        rw [hs] at hsearch
        have hs' : s ≠ "" := fun he => hsearch (by rw [he])
        have e4 : uspSet B3 searchKey s = B3 ++ [(searchKey, s)] :=
          uspSet_append_absent hkB3s s
        cases hb : fs.isProtocol with
        | false =>
            simp [strTruthy, searchBlock, protocolBlock, hs', e4]
        | true =>
            have habs2 : ∀ p ∈ B3 ++ [(searchKey, s)], p.1 ≠ isProtocolKey := by
              intro p hp
              rcases List.mem_append.mp hp with hp | hp
              · rcases hkB3 p hp with h | h | h <;> rw [h] <;> decide
              · simp only [List.mem_singleton] at hp
                rw [hp]
                show searchKey ≠ isProtocolKey
                decide
            have e5 : uspSet (B3 ++ [(searchKey, s)]) isProtocolKey trueStr
                = B3 ++ [(searchKey, s)] ++ [(isProtocolKey, trueStr)] :=
              uspSet_append_absent habs2 _
            have e6 : uspSet (B3 ++ [(searchKey, s)]) searchKey s = B3 ++ [(searchKey, s)] :=
              uspSet_set_last hkB3s s s
            simp [strTruthy, searchBlock, protocolBlock, hs', e4, e5, e6, List.append_assoc]
  rw [emid]
  have habs_status : ∀ p ∈ B3 ++ searchBlock fs.search ++ protocolBlock fs.isProtocol,
      p.1 ≠ statusKey := by
    intro p hp
    simp only [List.mem_append] at hp
    rcases hp with (hp | hp) | hp
    · rcases hkB3 p hp with h | h | h <;> rw [h] <;> decide
    · rw [searchBlock_keys p hp]; decide
    · rw [protocolBlock_keys p hp]; decide
  rw [estat _ habs_status, eadm, egrp]


/-! ### Reading the written query back -/

theorem getParam_cons (k' v' : String) (q : Query) (k : String) :
    getParam ((k', v') :: q) k = if k' == k then some v' else getParam q k := by
  unfold getParam
  cases h : (k' == k) with
  | true =>
      rw [List.find?_cons_of_pos _ (by exact h)]
      simp [h]
  | false =>
      rw [List.find?_cons_of_neg _ (by simp [h])]
      simp [h]

theorem getParam_eq_none {q : Query} {k : String} (h : ∀ p ∈ q, p.1 ≠ k) :
    getParam q k = none := by
  induction q with
  | nil => rfl
  | cons hd tl ih =>
      obtain ⟨k', v'⟩ := hd
      rw [getParam_cons]
      have : (k' == k) = false := by
        simp only [beq_eq_false_iff_ne, ne_eq]
        exact h (k', v') (List.mem_cons_self _ _)
      rw [this]
      simp only [Bool.false_eq_true, if_false]
      exact ih (fun p hp => h p (List.mem_cons_of_mem _ hp))

theorem getParam_append_skip {q1 : Query} {k : String} (h : ∀ p ∈ q1, p.1 ≠ k)
    (q2 : Query) : getParam (q1 ++ q2) k = getParam q2 k := by
  induction q1 with
  | nil => rfl
  | cons hd tl ih =>
      obtain ⟨k', v'⟩ := hd
      rw [List.cons_append, getParam_cons]
      have : (k' == k) = false := by
        simp only [beq_eq_false_iff_ne, ne_eq]
        exact h (k', v') (List.mem_cons_self _ _)
      rw [this]
      simp only [Bool.false_eq_true, if_false]
      exact ih (fun p hp => h p (List.mem_cons_of_mem _ hp))

theorem getAllParam_append (q1 q2 : Query) (k : String) :
    getAllParam (q1 ++ q2) k = getAllParam q1 k ++ getAllParam q2 k := by
  unfold getAllParam
  rw [List.filter_append, List.map_append]

theorem getAllParam_eq_nil {q : Query} {k : String} (h : ∀ p ∈ q, p.1 ≠ k) :
    getAllParam q k = [] := by
  unfold getAllParam
  have : q.filter (fun p => p.1 == k) = [] := by
    rw [List.filter_eq_nil]
    intro p hp
    simp only [beq_iff_eq]
    exact h p hp
  rw [this, List.map_nil]

/-- Absence of `k` in every block whose key differs from `k`. -/
theorem block_ne_key {q : Query} {kb : String} (hq : ∀ p ∈ q, p.1 = kb) {k : String}
    (hne : kb ≠ k) : ∀ p ∈ q, p.1 ≠ k := fun p hp => by rw [hq p hp]; exact hne

theorem queryOfState_assoc (d : Nat) (fs : FilterState) :
    queryOfState d fs
      = pageBlock fs.page ++ (limitBlock fs.limit d ++ (sortBlock fs.sort
        ++ (searchBlock fs.search ++ (protocolBlock fs.isProtocol
        ++ (statusBlock fs.status ++ (adminBlock fs.admin ++ groupBlock fs.group)))))) := by
  unfold queryOfState
  simp [List.append_assoc]

theorem qs_page (d : Nat) (fs : FilterState) :
    getParam (queryOfState d fs) pageKey
      = if fs.page > 0 then some (natToString (fs.page + 1)) else none := by
  rw [queryOfState_assoc]
  unfold pageBlock
  split_ifs with h
  · rw [List.singleton_append, getParam_cons]
    simp
  · rw [List.nil_append,
      getParam_append_skip (block_ne_key limitBlock_keys (by decide)),
      getParam_append_skip (block_ne_key sortBlock_keys (by decide)),
      getParam_append_skip (block_ne_key searchBlock_keys (by decide)),
      getParam_append_skip (block_ne_key protocolBlock_keys (by decide)),
      getParam_append_skip (block_ne_key statusBlock_keys (by decide)),
      getParam_append_skip (block_ne_key adminBlock_keys (by decide))]
    exact getParam_eq_none (block_ne_key groupBlock_keys (by decide))

theorem qs_limit (d : Nat) (fs : FilterState) :
    getParam (queryOfState d fs) limitKey
      = if fs.limit ≠ d then some (natToString fs.limit) else none := by
  rw [queryOfState_assoc,
    getParam_append_skip (block_ne_key pageBlock_keys (by decide))]
  unfold limitBlock
  split_ifs with h
  · rw [List.singleton_append, getParam_cons]
    simp
  · rw [List.nil_append,
      getParam_append_skip (block_ne_key sortBlock_keys (by decide)),
      getParam_append_skip (block_ne_key searchBlock_keys (by decide)),
      getParam_append_skip (block_ne_key protocolBlock_keys (by decide)),
      getParam_append_skip (block_ne_key statusBlock_keys (by decide)),
      getParam_append_skip (block_ne_key adminBlock_keys (by decide))]
    exact getParam_eq_none (block_ne_key groupBlock_keys (by decide))

theorem qs_sort (d : Nat) (fs : FilterState) :
    getParam (queryOfState d fs) sortKey
      = if fs.sort ≠ "" ∧ fs.sort ≠ defaultSort then some fs.sort else none := by
  rw [queryOfState_assoc,
    getParam_append_skip (block_ne_key pageBlock_keys (by decide)),
    getParam_append_skip (block_ne_key limitBlock_keys (by decide))]
  unfold sortBlock
  split_ifs with h
  · rw [List.singleton_append, getParam_cons]
    simp
  · rw [List.nil_append,
      getParam_append_skip (block_ne_key searchBlock_keys (by decide)),
      getParam_append_skip (block_ne_key protocolBlock_keys (by decide)),
      getParam_append_skip (block_ne_key statusBlock_keys (by decide)),
      getParam_append_skip (block_ne_key adminBlock_keys (by decide))]
    exact getParam_eq_none (block_ne_key groupBlock_keys (by decide))

theorem qs_search (d : Nat) (fs : FilterState) :
    getParam (queryOfState d fs) searchKey
      = match fs.search with
        | some s => if s ≠ "" then some s else none
        | none => none := by
  rw [queryOfState_assoc,
    getParam_append_skip (block_ne_key pageBlock_keys (by decide)),
    getParam_append_skip (block_ne_key limitBlock_keys (by decide)),
    getParam_append_skip (block_ne_key sortBlock_keys (by decide))]
  have htail : getParam (protocolBlock fs.isProtocol ++ (statusBlock fs.status
      ++ (adminBlock fs.admin ++ groupBlock fs.group))) searchKey = none := by
    rw [getParam_append_skip (block_ne_key protocolBlock_keys (by decide)),
      getParam_append_skip (block_ne_key statusBlock_keys (by decide)),
      getParam_append_skip (block_ne_key adminBlock_keys (by decide))]
    exact getParam_eq_none (block_ne_key groupBlock_keys (by decide))
  cases fs.search with
  | none =>
      simp only [searchBlock, List.nil_append]
      exact htail
  | some s =>
      simp only [searchBlock]
      split_ifs with h
      · rw [List.singleton_append, getParam_cons]
        simp
      · rw [List.nil_append]
        exact htail

theorem qs_protocol (d : Nat) (fs : FilterState) :
    getParam (queryOfState d fs) isProtocolKey
      = if fs.isProtocol then some trueStr else none := by
  rw [queryOfState_assoc,
    getParam_append_skip (block_ne_key pageBlock_keys (by decide)),
    getParam_append_skip (block_ne_key limitBlock_keys (by decide)),
    getParam_append_skip (block_ne_key sortBlock_keys (by decide)),
    getParam_append_skip (block_ne_key searchBlock_keys (by decide))]
  unfold protocolBlock
  split_ifs with h
  · rw [List.singleton_append, getParam_cons]
    simp
  · rw [List.nil_append,
      getParam_append_skip (block_ne_key statusBlock_keys (by decide)),
      getParam_append_skip (block_ne_key adminBlock_keys (by decide))]
    exact getParam_eq_none (block_ne_key groupBlock_keys (by decide))

theorem qs_status (d : Nat) (fs : FilterState) :
    getParam (queryOfState d fs) statusKey
      = match fs.status with
        | some st => some (statusToString st)
        | none => none := by
  rw [queryOfState_assoc,
    getParam_append_skip (block_ne_key pageBlock_keys (by decide)),
    getParam_append_skip (block_ne_key limitBlock_keys (by decide)),
    getParam_append_skip (block_ne_key sortBlock_keys (by decide)),
    getParam_append_skip (block_ne_key searchBlock_keys (by decide)),
    getParam_append_skip (block_ne_key protocolBlock_keys (by decide))]
  cases fs.status with
  | none =>
      simp only [statusBlock, List.nil_append]
      rw [getParam_append_skip (block_ne_key adminBlock_keys (by decide))]
      exact getParam_eq_none (block_ne_key groupBlock_keys (by decide))
  | some st =>
      simp only [statusBlock]
      rw [List.singleton_append, getParam_cons]
      simp

theorem qs_admin (d : Nat) (fs : FilterState) :
    getAllParam (queryOfState d fs) adminKey
      = match fs.admin with
        | some l => l
        | none => [] := by
  rw [queryOfState_assoc]
  repeat rw [getAllParam_append]
  rw [getAllParam_eq_nil (block_ne_key pageBlock_keys (by decide)),
    getAllParam_eq_nil (block_ne_key limitBlock_keys (by decide)),
    getAllParam_eq_nil (block_ne_key sortBlock_keys (by decide)),
    getAllParam_eq_nil (block_ne_key searchBlock_keys (by decide)),
    getAllParam_eq_nil (block_ne_key protocolBlock_keys (by decide)),
    getAllParam_eq_nil (block_ne_key statusBlock_keys (by decide)),
    getAllParam_eq_nil (block_ne_key groupBlock_keys (by decide))]
  simp only [List.nil_append, List.append_nil]
  cases fs.admin with
  | none => rfl
  | some l =>
      simp only [adminBlock]
      unfold getAllParam
      rw [List.filter_eq_self.mpr]
      · rw [List.map_map]
        simp
      · intro p hp
        obtain ⟨a, _, rfl⟩ := List.mem_map.mp hp
        simp

theorem qs_group (d : Nat) (fs : FilterState) :
    getAllParam (queryOfState d fs) groupKey
      = match fs.group with
        | some l => l.map natToString
        | none => [] := by
  rw [queryOfState_assoc]
  repeat rw [getAllParam_append]
  rw [getAllParam_eq_nil (block_ne_key pageBlock_keys (by decide)),
    getAllParam_eq_nil (block_ne_key limitBlock_keys (by decide)),
    getAllParam_eq_nil (block_ne_key sortBlock_keys (by decide)),
    getAllParam_eq_nil (block_ne_key searchBlock_keys (by decide)),
    getAllParam_eq_nil (block_ne_key protocolBlock_keys (by decide)),
    getAllParam_eq_nil (block_ne_key statusBlock_keys (by decide)),
    getAllParam_eq_nil (block_ne_key adminBlock_keys (by decide))]
  simp only [List.nil_append, List.append_nil]
  cases fs.group with
  | none => rfl
  | some l =>
      simp only [groupBlock]
      unfold getAllParam
      rw [List.filter_eq_self.mpr]
      · rw [List.map_map]
        simp
      · intro p hp
        obtain ⟨a, _, rfl⟩ := List.mem_map.mp hp
        simp

theorem natToString_ne_blank (m : Nat) : natToString m ≠ "" := by
  intro h
  exact natToString_data_ne_nil m (congrArg String.data h)

theorem parseStatus_roundtrip (st : UserStatus) :
    parseStatus (some (statusToString st)) = some st := by
  cases st <;> rfl

theorem filterMap_parseInt_natToString (l : List Nat) :
    (l.map natToString).filterMap parseIntJS = l.map (fun g : Nat => (g : Int)) := by
  induction l with
  | nil => rfl
  | cons a t ih => simp [List.filterMap_cons, parseIntJS_natToString, ih]

/-- The parse result the round-trip is expected to reproduce. -/
def urlFiltersOfState (fs : FilterState) : URLFilters :=
  { page := some (fs.page : Int)
    limit := (fs.limit : Int)
    sort := fs.sort
    search := fs.search
    status := fs.status
    admin := fs.admin
    group := fs.group.map (fun l => l.map (fun g : Nat => (g : Int)))
    isProtocol := fs.isProtocol }

theorem C1_url_roundtrip (d : Nat) (fs : FilterState)
    (hsort : fs.sort ≠ "")
    (hsearch : fs.search ≠ some ( "" ))
    (hlimit : 0 < fs.limit)
    (hadmin : ∀ l, fs.admin = some l → l ≠ [] ∧ ∀ a ∈ l, a ≠ "")
    (hgroup : ∀ l, fs.group = some l → l ≠ []) :
    parseURLParams (encodeURLParams fs.page fs.limit d (filtersOfState fs)) d
      = urlFiltersOfState fs := by
  rw [encode_eq_queryOfState d fs hsearch]
  unfold parseURLParams urlFiltersOfState
  rw [qs_page, qs_limit, qs_sort, qs_search, qs_protocol, qs_status, qs_admin, qs_group]
  simp only [URLFilters.mk.injEq]
  refine ⟨?_, ?_, ?_, ?_, ?_, ?_, ?_, ?_⟩
  · -- page
    by_cases h : fs.page > 0
    · rw [if_pos h]
      dsimp only
      rw [if_neg (natToString_ne_blank (fs.page + 1)), parseIntJS_natToString]
      simp only [Option.map_map, Option.map_some', Function.comp_apply, Option.some.injEq]
      push_cast
      omega
    · rw [if_neg h]
      have h0 : fs.page = 0 := by omega
      simp [h0]
  · -- limit
    by_cases h : fs.limit ≠ d
    · rw [if_pos h]
      dsimp only
      rw [if_neg (natToString_ne_blank fs.limit), parseIntJS_natToString]
      dsimp only
      rw [if_pos (by exact_mod_cast hlimit)]
    · rw [if_neg h]
      dsimp only
      rw [parseIntJS_natToString]
      dsimp only
      have hd : d = fs.limit := by omega
      subst hd
      rw [if_pos (by exact_mod_cast hlimit)]
  · -- sort
    by_cases h : fs.sort ≠ "" ∧ fs.sort ≠ defaultSort
    · rw [if_pos h]
      dsimp only
      rw [if_neg hsort]
    · rw [if_neg h]
      dsimp only
      have : fs.sort = defaultSort := by
        by_contra hne
        exact h ⟨hsort, hne⟩
      rw [this]
  · -- search
    cases hs : fs.search with
    | none => rfl
    | some s =>
        rw [hs] at hsearch
        have hs2 : s ≠ "" := fun he => hsearch (by rw [he])
        dsimp only
        rw [if_pos hs2]
        dsimp only
        rw [if_neg hs2]
  · -- status
    cases hst : fs.status with
    | none => rfl
    | some st =>
        dsimp only
        exact parseStatus_roundtrip st
  · -- admin
    cases ha : fs.admin with
    | none => simp
    | some l =>
        obtain ⟨hne, hmem⟩ := hadmin l ha
        dsimp only
        have hfilter : l.filter (fun s => s != "") = l := by
          rw [List.filter_eq_self]
          intro a haa
          simpa using hmem a haa
        rw [hfilter, if_pos (by simpa [List.length_pos] using hne)]
  · -- group
    cases hg : fs.group with
    | none => simp
    | some l =>
        have hne := hgroup l hg
        dsimp only
        rw [filterMap_parseInt_natToString,
          if_pos (by simp only [List.length_map, List.length_pos]; exact hne)]
        simp
  · -- isProtocol
    cases hb : fs.isProtocol with
    | false => rfl
    | true => rfl

/-- Witness for C1 with a fully-populated concrete filter state. -/
theorem C1_url_roundtrip_witness :
    parseURLParams (encodeURLParams 2 20 10 (filtersOfState
        { page := 2, limit := 20, sort := "username", search := some ( "bob" ),
          status := some .active, admin := some [( "root" )], group := some [3],
          isProtocol := false })) 10
      = urlFiltersOfState
        { page := 2, limit := 20, sort := "username", search := some ( "bob" ),
          status := some .active, admin := some [( "root" )], group := some [3],
          isProtocol := false } :=
  C1_url_roundtrip 10
    { page := 2, limit := 20, sort := "username", search := some ( "bob" ),
      status := some .active, admin := some [( "root" )], group := some [3],
      isProtocol := false }
    (by decide) (by decide) (by decide)
    (fun l hl => by injection hl with h; subst h; exact ⟨by decide, by decide⟩)
    (fun l hl => by injection hl with h; subst h; decide)

/-- C2: invalid query values and the fields they land in.  The `limit`,
`status` and `group` fields do fall back to their defaults, but a fully
non-numeric `page` parameter is parsed to `NaN` (modelled `none`):
`parseInt('abc') = NaN`, `NaN - 1 = NaN` and `Math.max(0, NaN) = NaN`, so
the invalid value propagates instead of falling back to page 0 as the
specification requires. -/
theorem C2_invalid_url_values :
    (parseURLParams [(limitKey, ( "abc" ))] 10).limit = 10 ∧
    (parseURLParams [(limitKey, ( "-5" ))] 10).limit = 10 ∧
    (parseURLParams [(statusKey, ( "bogus" ))] 10).status = none ∧
    (parseURLParams [(groupKey, ( "x" )), (groupKey, ( "5" ))] 10).group = some [5] ∧
    (parseURLParams [(pageKey, ( "abc" ))] 10).page = none ∧
    (parseURLParams [(pageKey, ( "abc" ))] 10).page ≠ some 0 := by
  refine ⟨by decide, by decide, by decide, by decide, by decide, by decide⟩


/-! ## Node list view (`NodesList` in the nodes page)

`NODES_PER_PAGE = 15`.  JS strings appearing in the search are modelled
as `List Char` (UTF-16 units); `toLowerCase` is `Char.toLower` per unit,
`String.prototype.includes` is `containsSub`. -/

/-- `NODES_PER_PAGE`. -/
def NODES_PER_PAGE : Nat := 15

/-- Whether `needle` occurs as a prefix of `hay` (helper for `includes`). -/
def isSubListAt : List Char → List Char → Bool
  | [], _ => true
  | _ :: _, [] => false
  | a :: t, b :: u => a == b && isSubListAt t u

/-- Model of JS `hay.includes(needle)`: contiguous substring test. -/
def containsSub (needle : List Char) : List Char → Bool
  | [] => isSubListAt needle []
  | c :: rest => isSubListAt needle (c :: rest) || containsSub needle rest

theorem isSubListAt_iff (n : List Char) : ∀ h : List Char, isSubListAt n h = true ↔ n <+: h := by
  induction n with
  | nil =>
      intro h
      simp [isSubListAt, List.nil_prefix]
  | cons a t ih =>
      intro h
      cases h with
      | nil => simp [isSubListAt]
      | cons b u =>
          rw [isSubListAt, List.cons_prefix_cons]
          simp [ih u]

theorem containsSub_iff (n : List Char) : ∀ h : List Char, containsSub n h = true ↔ n <:+: h := by
  intro h
  induction h with
  | nil =>
      rw [containsSub, isSubListAt_iff, List.infix_nil]
      exact ⟨fun hp => List.prefix_nil.mp hp, fun he => by rw [he]⟩
  | cons b u ih =>
      rw [containsSub, List.infix_cons_iff, Bool.or_eq_true, isSubListAt_iff, ih]

/-- The node fields the list view reads (`NodeResponse` projection). -/
structure NodeR where
  name : List Char
  address : List Char
  port : Option Nat
deriving DecidableEq, Repr

/-- The node-status enum of the API. -/
inductive NodeStatus where
  | connected
  | connecting
  | disabled
  | limited
  | error
deriving DecidableEq, Repr

/-- The `filters` state of `NodesList`. -/
structure NodeFilters where
  limit : Nat
  offset : Int
  search : Option String
  status : Option (List NodeStatus)
  core_id : Option Nat
deriving DecidableEq, Repr

/-- The state of the `NodesList` component that the list logic reads. -/
structure NodesViewState where
  filters : NodeFilters
  currentPage : Int
  isChangingPage : Bool
  localSearchTerm : List Char
  allNodes : List NodeR
  responseNodes : List NodeR
  total : Nat
deriving Repr

/-- `shouldUseLocalSearch = total > 0 && total <= NODES_PER_PAGE && !filters.search`. -/
def shouldUseLocalSearch (s : NodesViewState) : Bool :=
  decide (0 < s.total) && decide (s.total ≤ NODES_PER_PAGE) && !(strTruthy s.filters.search)

/-- The per-node predicate of `filteredNodes`: matches on lowercased name,
lowercased address, or the decimal string of the port. -/
def localNodeMatch (searchLower : List Char) (node : NodeR) : Bool :=
  containsSub searchLower (node.name.map Char.toLower)
    || containsSub searchLower (node.address.map Char.toLower)
    || (match node.port with
        | some p => containsSub searchLower (natToString p).data
        | none => false)

/-- `filteredNodes` (NodesList lines 211–217). -/
def filteredNodes (s : NodesViewState) : List NodeR :=
  if shouldUseLocalSearch s && !s.localSearchTerm.isEmpty
      && decide (0 < s.allNodes.length) then
    s.allNodes.filter (localNodeMatch (s.localSearchTerm.map Char.toLower))
  else s.responseNodes

/-- `paginatedNodes` (NodesList lines 219–226): in local-search mode the
filtered list is sliced to the window `[page*15, page*15+15)`.  (`toNat`
models JS `slice` for the non-negative pages the view produces.) -/
def paginatedNodes (s : NodesViewState) : List NodeR :=
  if shouldUseLocalSearch s && !s.localSearchTerm.isEmpty then
    (((filteredNodes s).drop (s.currentPage * (NODES_PER_PAGE : Int)).toNat).take
      NODES_PER_PAGE)
  else filteredNodes s

/-- `handleFilterChange` restricted to a search update `{search: value}`
(NodesList lines 120–139). -/
def handleFilterChangeSearch (s : NodesViewState) (newSearch : String) : NodesViewState :=
  let s1 := { s with localSearchTerm := newSearch.data }
  if shouldUseLocalSearch s && newSearch ≠ "" then
    { s1 with currentPage := 0 }
  else
    { s1 with filters := { s1.filters with search := some newSearch } }

/-- `handlePageChange` (NodesList lines 141–156). -/
def handlePageChange (s : NodesViewState) (newPage : Int) : NodesViewState :=
  if newPage = s.currentPage ∨ s.isChangingPage = true then s
  else if shouldUseLocalSearch s && !s.localSearchTerm.isEmpty then
    { s with currentPage := newPage }
  else
    { s with
      isChangingPage := true
      currentPage := newPage
      filters := { s.filters with offset := newPage * (NODES_PER_PAGE : Int) } }

/-- `totalNodes` (NodesList line 229). -/
def totalNodes (s : NodesViewState) : Nat :=
  if shouldUseLocalSearch s && !s.localSearchTerm.isEmpty
  then (filteredNodes s).length else s.total

/-- `Math.ceil(totalNodes / NODES_PER_PAGE)`. -/
def calculatedTotalPages (s : NodesViewState) : Nat :=
  (totalNodes s + NODES_PER_PAGE - 1) / NODES_PER_PAGE

/-- The page-clamp effect (NodesList lines 244–253). -/
def clampPageEffect (s : NodesViewState) : NodesViewState :=
  if 0 < calculatedTotalPages s ∧ (calculatedTotalPages s : Int) ≤ s.currentPage then
    { s with
      currentPage := (calculatedTotalPages s : Int) - 1
      filters := { s.filters with
        offset := ((calculatedTotalPages s : Int) - 1) * (NODES_PER_PAGE : Int) } }
  else s

/-- The response effect (NodesList lines 89–96): records the full node set
when the small-collection conditions hold. -/
def applyResponse (s : NodesViewState) (nodes : List NodeR) (tot : Nat) : NodesViewState :=
  let s1 := { s with responseNodes := nodes, total := tot }
  if shouldUseLocalSearch s1 && !(strTruthy s1.filters.search) && s1.filters.offset = 0 then
    { s1 with allNodes := nodes }
  else s1

/-- The initial `NodesList` state. -/
def initialNodesState : NodesViewState :=
  { filters := { limit := NODES_PER_PAGE, offset := 0, search := none,
                 status := none, core_id := none }
    currentPage := 0
    isChangingPage := false
    localSearchTerm := []
    allNodes := []
    responseNodes := []
    total := 0 }

/-- One user/system interaction of the node list view.  Pagination controls
only emit non-negative page indices. -/
inductive NodesStep : NodesViewState → NodesViewState → Prop
  | pageChange (s : NodesViewState) (n : Int) (hn : 0 ≤ n) :
      NodesStep s (handlePageChange s n)
  | searchChange (s : NodesViewState) (t : String) :
      NodesStep s (handleFilterChangeSearch s t)
  | clamp (s : NodesViewState) : NodesStep s (clampPageEffect s)
  | advanceSearch (s : NodesViewState) (st : Option (List NodeStatus)) (cid : Option Nat) :
      NodesStep s { s with
        currentPage := 0
        filters := { s.filters with
          status := st
          core_id := cid
          offset := 0 } }
  | clearAdvanceSearch (s : NodesViewState) :
      NodesStep s { s with
        currentPage := 0
        filters := { s.filters with
          status := none
          core_id := none
          offset := 0 } }
  | response (s : NodesViewState) (nodes : List NodeR) (tot : Nat) :
      NodesStep s (applyResponse s nodes tot)
  | fetchDone (s : NodesViewState) : NodesStep s { s with isChangingPage := false }

/-- States the node list view can reach. -/
inductive NodesReachable : NodesViewState → Prop
  | init : NodesReachable initialNodesState
  | step {s t : NodesViewState} : NodesReachable s → NodesStep s t → NodesReachable t

theorem shouldUseLocalSearch_true {s : NodesViewState} (htot : 0 < s.total)
    (h15 : s.total ≤ NODES_PER_PAGE) (hsrv : strTruthy s.filters.search = false) :
    shouldUseLocalSearch s = true := by
  unfold shouldUseLocalSearch
  simp [htot, h15, hsrv]

theorem localSearchTerm_not_empty {s : NodesViewState} (hterm : s.localSearchTerm ≠ []) :
    s.localSearchTerm.isEmpty = false := by
  cases hl : s.localSearchTerm with
  | nil => exact absurd hl hterm
  | cons a u => rfl

theorem filteredNodes_local (s : NodesViewState)
    (htot : 0 < s.total) (h15 : s.total ≤ NODES_PER_PAGE)
    (hsrv : strTruthy s.filters.search = false)
    (hterm : s.localSearchTerm ≠ []) (hcache : s.allNodes ≠ []) :
    filteredNodes s
      = s.allNodes.filter (localNodeMatch (s.localSearchTerm.map Char.toLower)) := by
  unfold filteredNodes
  rw [shouldUseLocalSearch_true htot h15 hsrv, localSearchTerm_not_empty hterm]
  have hlen : 0 < s.allNodes.length := List.length_pos.mpr hcache
  simp [hlen]

/-- C4: with a small server total (0 < total ≤ 15), no server-side search
term, a cached full node set and an active local search term, the rendered
page is the filtered cache sliced to `[page*15, page*15+15)`, and neither a
search change nor a page change modifies the fetch filter state (so neither
triggers a request). -/
theorem C4_local_small_result (s : NodesViewState) (t : String) (n : Int)
    (htot : 0 < s.total) (h15 : s.total ≤ NODES_PER_PAGE)
    (hsrv : strTruthy s.filters.search = false)
    (hterm : s.localSearchTerm ≠ [])
    (hcache : s.allNodes ≠ [])
    (ht : t ≠ "") :
    paginatedNodes s
        = ((s.allNodes.filter (localNodeMatch (s.localSearchTerm.map Char.toLower))).drop
            (s.currentPage * (NODES_PER_PAGE : Int)).toNat).take NODES_PER_PAGE ∧
      (handleFilterChangeSearch s t).filters = s.filters ∧
      (handlePageChange s n).filters = s.filters := by
  have hlocal : shouldUseLocalSearch s = true := shouldUseLocalSearch_true htot h15 hsrv
  have hterm2 : s.localSearchTerm.isEmpty = false := localSearchTerm_not_empty hterm
  refine ⟨?_, ?_, ?_⟩
  · unfold paginatedNodes
    rw [hlocal, hterm2, filteredNodes_local s htot h15 hsrv hterm hcache]
    rfl
  · unfold handleFilterChangeSearch
    rw [hlocal]
    simp [ht]
  · unfold handlePageChange
    split_ifs with h1 h2
    · rfl
    · rfl
    · rw [hlocal, hterm2] at h2
      exact absurd rfl h2

/-- Witness for C4: a two-node cache searched for `ab`. -/
theorem C4_local_small_result_witness :
    paginatedNodes
        { initialNodesState with
          total := 2
          localSearchTerm := ['a', 'b']
          allNodes := [{ name := ['x', 'A', 'b'], address := [], port := none },
                       { name := ['z'], address := [], port := some 17 }]
          responseNodes := [] }
        = (((({ initialNodesState with
              total := 2
              localSearchTerm := ['a', 'b']
              allNodes := [{ name := ['x', 'A', 'b'], address := [], port := none },
                           { name := ['z'], address := [], port := some 17 }]
              responseNodes := [] } : NodesViewState).allNodes.filter
            (localNodeMatch (['a', 'b'].map Char.toLower))).drop 0).take NODES_PER_PAGE) ∧
      (handleFilterChangeSearch
        { initialNodesState with
          total := 2
          localSearchTerm := ['a', 'b']
          allNodes := [{ name := ['x', 'A', 'b'], address := [], port := none },
                       { name := ['z'], address := [], port := some 17 }]
          responseNodes := [] } ( "ab" )).filters
        = ({ initialNodesState with
          total := 2
          localSearchTerm := ['a', 'b']
          allNodes := [{ name := ['x', 'A', 'b'], address := [], port := none },
                       { name := ['z'], address := [], port := some 17 }]
          responseNodes := [] } : NodesViewState).filters ∧
      (handlePageChange
        { initialNodesState with
          total := 2
          localSearchTerm := ['a', 'b']
          allNodes := [{ name := ['x', 'A', 'b'], address := [], port := none },
                       { name := ['z'], address := [], port := some 17 }]
          responseNodes := [] } 1).filters
        = ({ initialNodesState with
          total := 2
          localSearchTerm := ['a', 'b']
          allNodes := [{ name := ['x', 'A', 'b'], address := [], port := none },
                       { name := ['z'], address := [], port := some 17 }]
          responseNodes := [] } : NodesViewState).filters :=
  C4_local_small_result _ ( "ab" ) 1 (by decide) (by decide) (by decide) (by decide)
    (by decide) (by decide)

/-- C8: every reachable node-list state has a non-negative current page,
and whenever the computed total page count is positive and does not exceed
the current page, the clamp effect sets the page to `totalPages - 1` and
the fetch offset to `(totalPages - 1) * 15`. -/
theorem NodesStep.preserves_nonneg {s t : NodesViewState} (hstep : NodesStep s t)
    (ih : 0 ≤ s.currentPage) : 0 ≤ t.currentPage := by
  cases hstep with
  | pageChange n hn =>
      unfold handlePageChange
      split_ifs with h1 h2
      · exact ih
      · exact hn
      · exact hn
  | searchChange t2 =>
      unfold handleFilterChangeSearch
      split_ifs with h1
      · norm_num
      · exact ih
  | clamp =>
      unfold clampPageEffect
      split_ifs with h
      · have h1 := h.1
        show 0 ≤ (calculatedTotalPages s : Int) - 1
        omega
      · exact ih
  | advanceSearch st cid =>
      show (0 : Int) ≤ 0
      exact le_refl 0
  | clearAdvanceSearch =>
      show (0 : Int) ≤ 0
      exact le_refl 0
  | response nodes tot =>
      unfold applyResponse
      dsimp only
      split_ifs
      · exact ih
      · exact ih
  | fetchDone => exact ih

/-- C8: every reachable node-list state has a non-negative current page,
and whenever the computed total page count is positive and does not exceed
the current page, the clamp effect sets the page to `totalPages - 1` and
the fetch offset to `(totalPages - 1) * 15`. -/
theorem C8_node_page_clamp :
    (∀ s, NodesReachable s → 0 ≤ s.currentPage) ∧
    (∀ s, 0 < calculatedTotalPages s → (calculatedTotalPages s : Int) ≤ s.currentPage →
      (clampPageEffect s).currentPage = (calculatedTotalPages s : Int) - 1 ∧
      (clampPageEffect s).filters.offset
        = ((calculatedTotalPages s : Int) - 1) * (NODES_PER_PAGE : Int)) := by
  constructor
  · intro s hs
    induction hs with
    | init => norm_num [initialNodesState]
    | step hr hstep ih => exact hstep.preserves_nonneg ih
  · intro s h1 h2
    unfold clampPageEffect
    rw [if_pos ⟨h1, h2⟩]
    exact ⟨rfl, rfl⟩

/-- Witness for C8: the initial state, and a state with 5 nodes (one page)
stranded on page 3, which clamps to page 0 and offset 0. -/
theorem C8_node_page_clamp_witness :
    (0 : Int) ≤ initialNodesState.currentPage ∧
    ((clampPageEffect { initialNodesState with total := 5, currentPage := 3 }).currentPage
        = (calculatedTotalPages { initialNodesState with total := 5, currentPage := 3 } : Int)
          - 1 ∧
      (clampPageEffect { initialNodesState with total := 5, currentPage := 3 }).filters.offset
        = ((calculatedTotalPages { initialNodesState with total := 5, currentPage := 3 } : Int)
          - 1) * (NODES_PER_PAGE : Int)) :=
  ⟨C8_node_page_clamp.1 initialNodesState NodesReachable.init,
   C8_node_page_clamp.2 { initialNodesState with total := 5, currentPage := 3 }
     (by decide) (by decide)⟩

theorem localNodeMatch_iff (term : List Char) (node : NodeR) :
    localNodeMatch term node = true
      ↔ (term <:+: node.name.map Char.toLower
        ∨ term <:+: node.address.map Char.toLower
        ∨ ∃ p, node.port = some p ∧ term <:+: (natToString p).data) := by
  unfold localNodeMatch
  cases hp : node.port with
  | none => simp [containsSub_iff]
  | some p => simp [containsSub_iff, or_assoc]

/-- C10: in local-search mode, a node is kept exactly when the lowercased
term occurs in the lowercased name, the lowercased address, or the decimal
string of the port; no other field participates. -/
theorem C10_local_match (s : NodesViewState) (node : NodeR)
    (htot : 0 < s.total) (h15 : s.total ≤ NODES_PER_PAGE)
    (hsrv : strTruthy s.filters.search = false)
    (hterm : s.localSearchTerm ≠ [])
    (hcache : s.allNodes ≠ []) :
    node ∈ filteredNodes s
      ↔ node ∈ s.allNodes ∧
        (s.localSearchTerm.map Char.toLower <:+: node.name.map Char.toLower
          ∨ s.localSearchTerm.map Char.toLower <:+: node.address.map Char.toLower
          ∨ ∃ p, node.port = some p
              ∧ s.localSearchTerm.map Char.toLower <:+: (natToString p).data) := by
  rw [filteredNodes_local s htot h15 hsrv hterm hcache]
  simp only [List.mem_filter, localNodeMatch_iff]

/-- Witness for C10: searching `ab` keeps the node named `xAb`. -/
theorem C10_local_match_witness :
    ({ name := ['x', 'A', 'b'], address := [], port := none } : NodeR)
        ∈ filteredNodes
          { initialNodesState with
            total := 2
            localSearchTerm := ['a', 'B']
            allNodes := [{ name := ['x', 'A', 'b'], address := [], port := none },
                         { name := ['z'], address := [], port := some 17 }]
            responseNodes := [] }
      ↔ ({ name := ['x', 'A', 'b'], address := [], port := none } : NodeR)
          ∈ [({ name := ['x', 'A', 'b'], address := [], port := none } : NodeR),
             { name := ['z'], address := [], port := some 17 }] ∧
        (['a', 'B'].map Char.toLower
            <:+: (['x', 'A', 'b'].map Char.toLower)
          ∨ ['a', 'B'].map Char.toLower <:+: ([] : List Char).map Char.toLower
          ∨ ∃ p, (none : Option Nat) = some p
              ∧ ['a', 'B'].map Char.toLower <:+: (natToString p).data) :=
  C10_local_match _ _ (by decide) (by decide) (by decide) (by decide) (by decide)


/-! ## Relative-time formatters (`OnlineBadge.getTooltipText` and
`useRelativeExpiryDate`)

Both formatters first compute calendar-aware unit differences
(`years/months/days/hours/minutes/seconds`) with dayjs (external), then
assemble the displayed parts.  We embed the assembly, taking the unit
amounts as inputs; a part is `(count, unit)` and pluralization picks the
plural key exactly when `count ≠ 1`. -/

/-- Calendar units, largest first. -/
inductive TimeUnit where
  | year
  | month
  | day
  | hour
  | minute
  | second
deriving DecidableEq, Repr

/-- Rank of a unit (0 = largest). -/
def unitRank : TimeUnit → Nat
  | .year => 0
  | .month => 1
  | .day => 2
  | .hour => 3
  | .minute => 4
  | .second => 5

/-- The parts pushed by `OnlineBadge.getTooltipText` (online-status.tsx
lines 92–111): years/months/days are pushed unconditionally when non-zero;
hours/minutes only while fewer than two parts exist; seconds only when no
part exists. -/
def onlineBadgeParts (years months days hours minutes seconds : Nat) :
    List (Nat × TimeUnit) :=
  let p1 : List (Nat × TimeUnit) := if years > 0 then [(years, .year)] else []
  let p2 := p1 ++ (if months > 0 then [(months, .month)] else [])
  let p3 := p2 ++ (if days > 0 then [(days, .day)] else [])
  let p4 := p3 ++ (if hours > 0 ∧ p3.length < 2 then [(hours, .hour)] else [])
  let p5 := p4 ++ (if minutes > 0 ∧ p4.length < 2 then [(minutes, .minute)] else [])
  p5 ++ (if seconds > 0 ∧ p5.length = 0 then [(seconds, .second)] else [])

/-- The tooltip of the online badge. -/
inductive BadgeTooltip where
  | notConnectedYet
  | online
  | agoBare
  | ago (parts : List (Nat × TimeUnit))
deriving DecidableEq, Repr

/-- `OnlineBadge.getTooltipText`: no last-online value, online within 60
seconds, otherwise the assembled parts with the `ago` suffix (bare `ago`
when every unit is zero). -/
def getTooltipText (hasLastOnline : Bool) (diffInSeconds : Int)
    (years months days hours minutes seconds : Nat) : BadgeTooltip :=
  if !hasLastOnline then .notConnectedYet
  else if diffInSeconds ≤ 60 then .online
  else
    let parts := onlineBadgeParts years months days hours minutes seconds
    if parts.length = 0 then .agoBare else .ago parts

/-- `durationSlots` of `useRelativeExpiryDate`: years/months/days pushed
unconditionally when non-zero; hours/minutes only when all three are
zero. -/
def expiryDurationSlots (years months days hours minutes : Nat) :
    List (Nat × TimeUnit) :=
  let p1 : List (Nat × TimeUnit) := if years > 0 then [(years, .year)] else []
  let p2 := p1 ++ (if months > 0 then [(months, .month)] else [])
  let p3 := p2 ++ (if days > 0 then [(days, .day)] else [])
  if p3.length = 0 then
    (if hours > 0 then [(hours, TimeUnit.hour)] else [])
      ++ (if minutes > 0 then [(minutes, TimeUnit.minute)] else [])
  else p3

/-- The `time` field produced by `useRelativeExpiryDate`. -/
inductive ExpiryTime where
  | justNow
  | spans (parts : List (Nat × TimeUnit)) (ago : Bool)
deriving DecidableEq, Repr

/-- `useRelativeExpiryDate` rendering: `justNow` for a past instant with no
slots and under a minute, otherwise the slots with the `ago` suffix for
past instants. -/
def expiryTimeText (isAfter : Bool) (years months days hours minutes : Nat) : ExpiryTime :=
  let slots := expiryDurationSlots years months days hours minutes
  if ¬ isAfter ∧ slots.length = 0 ∧ minutes < 1 then .justNow
  else .spans slots (!isAfter)

/-- C9 counterexample: instants one year, two months and three days apart
(calendar diffs `years = 1, months = 2, days = 3`) produce three units in
both formatters, not at most two as claimed. -/
theorem C9_relative_time_counterexample :
    (onlineBadgeParts 1 2 3 0 0 0).length = 3 ∧
      ¬ (onlineBadgeParts 1 2 3 0 0 0).length ≤ 2 ∧
      (expiryDurationSlots 1 2 3 0 0).length = 3 ∧
      ¬ (expiryDurationSlots 1 2 3 0 0).length ≤ 2 ∧
      getTooltipText true 100 1 2 3 0 0 0
        = .ago [(1, .year), (2, .month), (3, .day)] := by
  refine ⟨by decide, by decide, by decide, by decide, by decide⟩

theorem mem_ite_singleton {α : Type} {c : Prop} [Decidable c] {x pr : α}
    (h : pr ∈ (if c then [x] else [])) : pr = x ∧ c := by
  split_ifs at h with hc
  · simp only [List.mem_singleton] at h
    exact ⟨h, hc⟩
  · simp at h

theorem mem_app_ite {α : Type} {l : List α} {c : Prop} [Decidable c] {x pr : α}
    (h : pr ∈ l ++ (if c then [x] else [])) : pr ∈ l ∨ pr = x := by
  rcases List.mem_append.mp h with h | h
  · exact Or.inl h
  · exact Or.inr (mem_ite_singleton h).1

theorem pairwise_app_ite {α : Type} {R : α → α → Prop} {l : List α} {c : Prop}
    [Decidable c] {x : α} (hl : List.Pairwise R l) (hlt : ∀ a ∈ l, R a x) :
    List.Pairwise R (l ++ (if c then [x] else [])) := by
  split_ifs
  · refine List.pairwise_append.mpr ⟨hl, List.pairwise_singleton _ _, ?_⟩
    intro a ha b hb
    simp only [List.mem_singleton] at hb
    subst hb
    exact hlt a ha
  · simpa using hl

theorem mem_app_ite_full {α : Type} {l : List α} {c : Prop} [Decidable c] {x pr : α}
    (h : pr ∈ l ++ (if c then [x] else [])) : pr ∈ l ∨ (pr = x ∧ c) := by
  rcases List.mem_append.mp h with h | h
  · exact Or.inl h
  · exact Or.inr (mem_ite_singleton h)

theorem onlineBadgeParts_mem_pos {y m d h mi s : Nat} {pr : Nat × TimeUnit}
    (hpr : pr ∈ onlineBadgeParts y m d h mi s) : 0 < pr.1 := by
  unfold onlineBadgeParts at hpr
  dsimp only at hpr
  rcases mem_app_ite_full hpr with hpr | ⟨rfl, hc⟩
  · rcases mem_app_ite_full hpr with hpr | ⟨rfl, hc⟩
    · rcases mem_app_ite_full hpr with hpr | ⟨rfl, hc⟩
      · rcases mem_app_ite_full hpr with hpr | ⟨rfl, hc⟩
        · rcases mem_app_ite_full hpr with hpr | ⟨rfl, hc⟩
          · obtain ⟨rfl, hc⟩ := mem_ite_singleton hpr
            exact hc
          · exact hc
        · exact hc
      · exact hc.1
    · exact hc.1
  · exact hc.1

theorem expiryDurationSlots_mem_pos {y m d h mi : Nat} {pr : Nat × TimeUnit}
    (hpr : pr ∈ expiryDurationSlots y m d h mi) : 0 < pr.1 := by
  unfold expiryDurationSlots at hpr
  dsimp only at hpr
  by_cases hc0 : ((if y > 0 then [((y : Nat), TimeUnit.year)] else [])
      ++ (if m > 0 then [((m : Nat), TimeUnit.month)] else [])
      ++ (if d > 0 then [((d : Nat), TimeUnit.day)] else [])).length = 0
  · rw [if_pos hc0] at hpr
    rcases mem_app_ite_full hpr with hpr | ⟨rfl, hc⟩
    · obtain ⟨rfl, hc⟩ := mem_ite_singleton hpr
      exact hc
    · exact hc
  · rw [if_neg hc0] at hpr
    rcases mem_app_ite_full hpr with hpr | ⟨rfl, hc⟩
    · rcases mem_app_ite_full hpr with hpr | ⟨rfl, hc⟩
      · obtain ⟨rfl, hc⟩ := mem_ite_singleton hpr
        exact hc
      · exact hc
    · exact hc

theorem onlineBadgeParts_ranks {y m d h mi s : Nat} :
    ∀ pr ∈ onlineBadgeParts y m d h mi s, unitRank pr.2 ≤ 5 := by
  intro pr hpr
  unfold unitRank
  split <;> omega

theorem expiry_p3_rank {y m d : Nat} {pr : Nat × TimeUnit}
    (hpr : pr ∈ (if y > 0 then [((y : Nat), TimeUnit.year)] else [])
      ++ (if m > 0 then [((m : Nat), TimeUnit.month)] else [])
      ++ (if d > 0 then [((d : Nat), TimeUnit.day)] else [])) :
    unitRank pr.2 ≤ 2 := by
  rcases mem_app_ite_full hpr with hpr | ⟨rfl, hc⟩
  · rcases mem_app_ite_full hpr with hpr | ⟨rfl, hc⟩
    · obtain ⟨rfl, hc⟩ := mem_ite_singleton hpr
      show unitRank TimeUnit.year ≤ 2
      decide
    · show unitRank TimeUnit.month ≤ 2
      decide
  · show unitRank TimeUnit.day ≤ 2
    decide

theorem expiry_p3_pairwise {y m d : Nat} :
    List.Pairwise (fun a b : Nat × TimeUnit => unitRank a.2 < unitRank b.2)
      ((if y > 0 then [((y : Nat), TimeUnit.year)] else [])
        ++ (if m > 0 then [((m : Nat), TimeUnit.month)] else [])
        ++ (if d > 0 then [((d : Nat), TimeUnit.day)] else [])) := by
  apply pairwise_app_ite
  · apply pairwise_app_ite
    · split_ifs <;> simp
    · intro a ha
      obtain ⟨rfl, hc⟩ := mem_ite_singleton ha
      show unitRank TimeUnit.year < unitRank TimeUnit.month
      decide
  · intro a ha
    rcases mem_app_ite_full ha with ha | ⟨rfl, hc⟩
    · obtain ⟨rfl, hc⟩ := mem_ite_singleton ha
      show unitRank TimeUnit.year < unitRank TimeUnit.day
      decide
    · show unitRank TimeUnit.month < unitRank TimeUnit.day
      decide

theorem expiry_p3_rank_lt {y m d : Nat} {u : TimeUnit} (hu : 3 ≤ unitRank u) :
    ∀ pr ∈ (if y > 0 then [((y : Nat), TimeUnit.year)] else [])
      ++ (if m > 0 then [((m : Nat), TimeUnit.month)] else [])
      ++ (if d > 0 then [((d : Nat), TimeUnit.day)] else []),
      unitRank pr.2 < unitRank u :=
  fun pr hpr => lt_of_le_of_lt (expiry_p3_rank hpr) (by omega)

theorem onlineBadgeParts_pairwise (y m d h mi s : Nat) :
    List.Pairwise (fun a b : Nat × TimeUnit => unitRank a.2 < unitRank b.2)
      (onlineBadgeParts y m d h mi s) := by
  unfold onlineBadgeParts
  dsimp only
  apply pairwise_app_ite
  · apply pairwise_app_ite
    · apply pairwise_app_ite
      · exact expiry_p3_pairwise
      · intro a ha
        exact expiry_p3_rank_lt (u := TimeUnit.hour) (by decide) a ha
    · intro a ha
      rcases mem_app_ite_full ha with ha | ⟨rfl, hc⟩
      · exact expiry_p3_rank_lt (u := TimeUnit.minute) (by decide) a ha
      · show unitRank TimeUnit.hour < unitRank TimeUnit.minute
        decide
  · intro a ha
    rcases mem_app_ite_full ha with ha | ⟨rfl, hc⟩
    · rcases mem_app_ite_full ha with ha | ⟨rfl, hc⟩
      · exact expiry_p3_rank_lt (u := TimeUnit.second) (by decide) a ha
      · show unitRank TimeUnit.hour < unitRank TimeUnit.second
        decide
    · show unitRank TimeUnit.minute < unitRank TimeUnit.second
      decide

theorem expiryDurationSlots_pairwise (y m d h mi : Nat) :
    List.Pairwise (fun a b : Nat × TimeUnit => unitRank a.2 < unitRank b.2)
      (expiryDurationSlots y m d h mi) := by
  unfold expiryDurationSlots
  dsimp only
  by_cases hc0 : ((if y > 0 then [((y : Nat), TimeUnit.year)] else [])
      ++ (if m > 0 then [((m : Nat), TimeUnit.month)] else [])
      ++ (if d > 0 then [((d : Nat), TimeUnit.day)] else [])).length = 0
  · rw [if_pos hc0]
    apply pairwise_app_ite
    · split_ifs <;> simp
    · intro a ha
      obtain ⟨rfl, hc⟩ := mem_ite_singleton ha
      show unitRank TimeUnit.hour < unitRank TimeUnit.minute
      decide
  · rw [if_neg hc0]
    exact expiry_p3_pairwise

theorem expiryDurationSlots_large_units {y m d h mi : Nat}
    (hpos : 0 < y ∨ 0 < m ∨ 0 < d) :
    ∀ pr ∈ expiryDurationSlots y m d h mi,
      pr.2 ≠ TimeUnit.hour ∧ pr.2 ≠ TimeUnit.minute := by
  intro pr hpr
  unfold expiryDurationSlots at hpr
  dsimp only at hpr
  have hlen : ((if y > 0 then [((y : Nat), TimeUnit.year)] else [])
      ++ (if m > 0 then [((m : Nat), TimeUnit.month)] else [])
      ++ (if d > 0 then [((d : Nat), TimeUnit.day)] else [])).length ≠ 0 := by
    simp only [List.length_append]
    rcases hpos with hy | hm | hd <;> split_ifs <;> simp_all
  rw [if_neg hlen] at hpr
  have := expiry_p3_rank hpr
  constructor <;> (intro he; rw [he] at this; simp [unitRank] at this)
/-- C9 (amended): both formatters emit the non-zero calendar units largest
first — up to three of years/months/days — with counts positive and units
strictly ordered; the expiry formatter admits hours/minutes only when
years, months and days are all zero; a future expiry never carries the
`ago` suffix, a past expiry with at least one slot always does; and a
difference of at most 60 seconds renders as `online`. -/
theorem C9_relative_time_units (y m d h mi s : Nat) :
    (onlineBadgeParts y m d h mi s).length ≤ 3 ∧
    (expiryDurationSlots y m d h mi).length ≤ 3 ∧
    (∀ pr ∈ onlineBadgeParts y m d h mi s, 0 < pr.1) ∧
    (∀ pr ∈ expiryDurationSlots y m d h mi, 0 < pr.1) ∧
    List.Pairwise (fun a b => unitRank a.2 < unitRank b.2)
      (onlineBadgeParts y m d h mi s) ∧
    List.Pairwise (fun a b => unitRank a.2 < unitRank b.2)
      (expiryDurationSlots y m d h mi) ∧
    ((0 < y ∨ 0 < m ∨ 0 < d) →
      ∀ pr ∈ expiryDurationSlots y m d h mi,
        pr.2 ≠ TimeUnit.hour ∧ pr.2 ≠ TimeUnit.minute) ∧
    expiryTimeText true y m d h mi = .spans (expiryDurationSlots y m d h mi) false ∧
    (0 < (expiryDurationSlots y m d h mi).length →
      expiryTimeText false y m d h mi = .spans (expiryDurationSlots y m d h mi) true) ∧
    (∀ diff : Int, diff ≤ 60 → getTooltipText true diff y m d h mi s = .online) := by
  refine ⟨?_, ?_, ?_, ?_, ?_, ?_, ?_, ?_, ?_, ?_⟩
  · unfold onlineBadgeParts
    dsimp only
    split_ifs <;> simp_all
  · unfold expiryDurationSlots
    dsimp only
    split_ifs <;> simp_all
  · exact fun pr hpr => onlineBadgeParts_mem_pos hpr
  · exact fun pr hpr => expiryDurationSlots_mem_pos hpr
  · exact onlineBadgeParts_pairwise y m d h mi s
  · exact expiryDurationSlots_pairwise y m d h mi
  · exact fun hpos => expiryDurationSlots_large_units hpos
  · unfold expiryTimeText
    simp
  · intro hlen
    unfold expiryTimeText
    dsimp only
    rw [if_neg (by omega)]
    rfl
  · intro diff hdiff
    unfold getTooltipText
    rw [if_neg (by simp), if_pos hdiff]

/-- Witness for C9 (amended) at concrete unit values. -/
theorem C9_relative_time_units_witness :
    (onlineBadgeParts 1 0 0 5 0 0).length ≤ 3 ∧
    (∀ pr ∈ expiryDurationSlots 1 2 3 0 0,
      pr.2 ≠ TimeUnit.hour ∧ pr.2 ≠ TimeUnit.minute) ∧
    expiryTimeText false 0 0 3 0 0 = .spans (expiryDurationSlots 0 0 3 0 0) true ∧
    getTooltipText true 30 0 0 0 0 0 45 = .online :=
  ⟨(C9_relative_time_units 1 0 0 5 0 0).1,
    (C9_relative_time_units 1 2 3 0 0 0).2.2.2.2.2.2.1 (by decide),
    (C9_relative_time_units 0 0 3 0 0 0).2.2.2.2.2.2.2.2.1 (by decide),
    (C9_relative_time_units 0 0 0 0 0 45).2.2.2.2.2.2.2.2.2 30 (by decide)⟩

end PasarGuard
